import Mathlib

set_option maxRecDepth 7000
set_option maxHeartbeats 1000000

/-!
Verification development for the serde-eth ABI codec.

The definitions below are a shallow embedding of the repository's source
files (`src/eth.rs`, `src/error.rs`, `src/ser.rs`, `src/de.rs`,
`src/custom_ser.rs`, `src/custom_de.rs`).  Hex streams are modelled as
`List Char`, byte buffers as `List Nat` (each entry `< 256`), machine
integers as `Nat`/`Int` with explicit `% 2^w` where the source truncates,
and the 256-bit `U256` values of the `uint` crate as `Nat` with explicit
`% 2^256` wrapping.  Fallible code returns `Except Err`.
-/

namespace SerdeEth

/-! ### Hex layer

The repository delegates hex encoding/decoding to the external `hex`
crate, which the specification declares an external collaborator and
whose contract it fixes: streams are even-length lowercase hex, and any
other character fails with the syntax error "invalid character".
-/

/-- Hex digit for a nibble, lowercase (behaviour of `hex::encode`). -/
def hexChr (n : Nat) : Char :=
  if n < 10 then Char.ofNat (48 + n) else Char.ofNat (87 + n)

/-- Modelled from the spec: value of one hex character for the external
`hex` crate's decoder.  Per the spec's wire-format contract (§6) only
the lowercase digits `0-9`, `a-f` are accepted; every other character
(including uppercase hex) is rejected as "invalid character". -/
def hexVal (c : Char) : Option Nat :=
  if 48 ≤ c.toNat ∧ c.toNat ≤ 57 then some (c.toNat - 48)
  else if 97 ≤ c.toNat ∧ c.toNat ≤ 102 then some (c.toNat - 87)
  else none

/-- `hex::encode`: two lowercase hex characters per byte. -/
def hexEncode : List Nat → List Char
  | [] => []
  | b :: bs => hexChr (b / 16) :: hexChr (b % 16) :: hexEncode bs

/-- Modelled from the spec: the external `hex` crate's `decode`.  Odd
length fails; any character outside lowercase hex fails with the
description "invalid character". -/
def hexDecode : List Char → Except String (List Nat)
  | [] => .ok []
  | [_] => .error "odd number of digits"
  | c1 :: c2 :: cs =>
    match hexVal c1, hexVal c2 with
    | some h, some l =>
      match hexDecode cs with
      | .ok bs => .ok ((h * 16 + l) :: bs)
      | .error e => .error e
    | _, _ => .error "invalid character"

/-! ### Error model (`src/error.rs`) -/

/-- `error::TupleHint`. -/
structure TupleHint where
  index : Nat
  isDynamic : Bool
deriving DecidableEq, Repr

/-- `error::ErrorCode` / `error::Error`.  `ethParsingE` is modelled from
the spec: `eth.rs` calls `Error::eth_parsing` on ABI-word decode
failures, but the constructor is absent from the `error.rs` in `src/`;
per the spec's error taxonomy (§7) malformed-word failures are Data
errors, and their description is the wrapped message. -/
inductive Err where
  | tupleHintE : TupleHint → Err → Err
  | message : String → Err
  | ioE : String → Err
  | notImplemented : Err
  | hexParsingE : String → Err
  | parsing : String → Err
  | ethParsingE : String → Err
deriving DecidableEq, Repr

deriving instance DecidableEq for Except

/-- `error::Category`. -/
inductive Cat where
  | hint
  | ioC
  | syn
  | data
  | eofC
  | internal
deriving DecidableEq, Repr

/-- `Error::classify`. -/
def Err.classify : Err → Cat
  | .tupleHintE _ _ => .hint
  | .message _ => .data
  | .ioE _ => .ioC
  | .notImplemented => .internal
  | .hexParsingE _ => .syn
  | .parsing _ => .syn
  | .ethParsingE _ => .data

/-- `std::error::Error::description` for `Error`. -/
def Err.description : Err → String
  | .tupleHintE _ e => e.description
  | .message s => s
  | .ioE s => s
  | .notImplemented => "not implemented"
  | .hexParsingE s => s
  | .parsing s => s
  | .ethParsingE s => s

/-- `Error::tuple_hint`. -/
def Err.tupleHint : Err → Option TupleHint
  | .tupleHintE h _ => some h
  | _ => none

/-! ### `uint`-crate 256-bit helpers

`ethabi::decode` hands `verify_int` / `verify_uint` a raw 256-bit word
(`ethereum_types::U256`), modelled as a `Nat` below `2^256`.
-/

/-- Binary length of a number, by structural recursion on a fuel that
covers every 256-bit value. -/
def bitsCore : Nat → Nat → Nat
  | 0, _ => 0
  | fuel + 1, n => if n = 0 then 0 else bitsCore fuel (n / 2) + 1

/-- `U256::bits`: the least number of bits needed to represent the
number (`0` for zero). -/
def u256Bits (n : Nat) : Nat :=
  bitsCore 257 n

/-- `U256::leading_zeros` for a value below `2^256`. -/
def u256LeadingZeros (n : Nat) : Nat :=
  256 - u256Bits n

/-- `U256::low_u64`. -/
def u256LowU64 (n : Nat) : Nat :=
  n % 2 ^ 64

/-- `u64 as i64`: reinterpret the low 64 bits as a signed value. -/
def u64AsI64 (n : Nat) : Int :=
  if n % 2 ^ 64 < 2 ^ 63 then ((n % 2 ^ 64 : Nat) : Int)
  else ((n % 2 ^ 64 : Nat) : Int) - 2 ^ 64

/-- `i64 as i8` / `as i16` / `as i32`: truncate to the low `w` bits and
reinterpret as a signed value. -/
def i64AsIw (w : Nat) (v : Int) : Int :=
  let m := v.emod (2 ^ w)
  if m < 2 ^ (w - 1) then m else m - 2 ^ w

/-- `U256::overflowing_neg` of the `uint` crate: bitwise complement for
a nonzero input (with overflow flag `true`), identity on zero. -/
def u256OverflowingNeg (n : Nat) : Nat × Bool :=
  if n = 0 then (0, false) else (2 ^ 256 - 1 - n, true)

/-- `U256::overflowing_add` with a 256-bit wrap. -/
def u256OverflowingAdd (a b : Nat) : Nat × Bool :=
  ((a + b) % 2 ^ 256, decide (2 ^ 256 ≤ a + b))

/-! ### Primitive codec (`src/eth.rs`) -/

/-- Value of a big-endian byte string. -/
def wordToNat (bs : List Nat) : Nat :=
  bs.foldl (fun a b => a * 256 + b) 0

/-- Modelled from the spec: `ethabi::decode` of one statically sized
token reads the first 32 bytes of the payload as a raw 256-bit
big-endian word, failing (via the missing `Error::eth_parsing`) when
fewer than 32 bytes are available. -/
def ethAbiDecodeWord (bs : List Nat) : Except Err Nat :=
  if bs.length < 32 then .error (.ethParsingE "Invalid data")
  else .ok (wordToNat (bs.take 32))

/-- `eth::verify_uint`. -/
def verify_uint (u : Nat) (size : Nat) : Except Err Nat :=
  if u256Bits u > size then
    .error (.parsing "decoded integer does not fit in integer of specified size")
  else
    .ok (u256LowU64 u)

/-- `eth::verify_int`. -/
def verify_int (int : Nat) (size : Nat) : Except Err Int :=
  if u256LeadingZeros int > 0 then
    if u256Bits int ≥ size then
      .error (.parsing "decoded integer does not fit in integer of specified size")
    else
      .ok (u64AsI64 (u256LowU64 int))
  else
    let n1 := u256OverflowingNeg int
    if n1.2 = false then
      .error (.parsing "decoded integer does not fit in integer of specified size")
    else
      let n2 := u256OverflowingAdd n1.1 1
      if n2.2 = true ∨ u256Bits n2.1 > size then
        .error (.parsing "decoded integer does not fit in integer of specified size")
      else
        let i := u64AsI64 (u256LowU64 n2.1)
        .ok (if i < 0 then i else -i)

/-- `eth::decode_uint`. -/
def decode_uint (bytes : List Char) (size : Nat) : Except Err Nat :=
  if size < 8 ∨ size > 64 then
    .error (.message "an unsigned integer must be anumber between 8 and 64 bits")
  else
    match hexDecode bytes with
    | .error e => .error (.hexParsingE e)
    | .ok decoded =>
      match ethAbiDecodeWord decoded with
      | .error e => .error e
      | .ok v => verify_uint v size

/-- `eth::decode_int`. -/
def decode_int (bytes : List Char) (size : Nat) : Except Err Int :=
  if size < 8 ∨ size > 64 then
    .error (.message "an integer must be a number between 8 and 64 bits")
  else
    match hexDecode bytes with
    | .error e => .error (.hexParsingE e)
    | .ok decoded =>
      match ethAbiDecodeWord decoded with
      | .error e => .error e
      | .ok v => verify_int v size

/-- `decode_int` produced exactly the given integer (executable check). -/
def intResEq : Except Err Int → Int → Bool
  | .ok v, w => v == w
  | .error _, _ => false

/-- `ethabi::decode` for one `Bool` token: modelled from the spec
(§4.1): "fails unless the word is exactly `00…00` or `00…01`". -/
def ethAbiDecodeBool (bs : List Nat) : Except Err Bool :=
  if bs.length < 32 then .error (.ethParsingE "Invalid data")
  else if bs.take 32 = List.replicate 31 0 ++ [0] then .ok false
  else if bs.take 32 = List.replicate 31 0 ++ [1] then .ok true
  else .error (.ethParsingE "Cannot decode bool")

/-- `eth::decode_bool`. -/
def decode_bool (bytes : List Char) : Except Err Bool :=
  match hexDecode bytes with
  | .error e => .error (.hexParsingE e)
  | .ok decoded => ethAbiDecodeBool decoded

/-- `eth::decode_bytes`. -/
def decode_bytes (bytes : List Char) (len : Nat) : Except Err (List Nat) :=
  match hexDecode bytes with
  | .error e => .error (.hexParsingE e)
  | .ok decoded =>
    if len > decoded.length then
      .error (.parsing "decoded bytes are smaller than the required length")
    else
      .ok (decoded.take len)

/-- `eth::pad_u64`: a `u64` as a right-aligned 32-byte array. -/
def pad_u64 (v : Nat) : List Nat :=
  List.replicate 24 0 ++
    [v / 2 ^ 56 % 256, v / 2 ^ 48 % 256, v / 2 ^ 40 % 256, v / 2 ^ 32 % 256,
     v / 2 ^ 24 % 256, v / 2 ^ 16 % 256, v / 2 ^ 8 % 256, v % 256]

/-- `eth::pad_i64`: a `i64` as a sign-extended 32-byte array.  For a
negative value the arithmetic shifts followed by `as u8` produce the
bytes of the two's-complement low 64 bits. -/
def pad_i64 (v : Int) : List Nat :=
  if 0 ≤ v then pad_u64 v.toNat
  else
    let n := (v + 2 ^ 64).toNat
    List.replicate 24 255 ++
      [n / 2 ^ 56 % 256, n / 2 ^ 48 % 256, n / 2 ^ 40 % 256, n / 2 ^ 32 % 256,
       n / 2 ^ 24 % 256, n / 2 ^ 16 % 256, n / 2 ^ 8 % 256, n % 256]

/-- `eth::encode_u64` (`ethabi::encode` of a 32-byte `Uint` word is the
word itself, hex-encoded). -/
def encode_u64 (v : Nat) : List Char :=
  hexEncode (pad_u64 v)

/-- `eth::encode_i64`. -/
def encode_i64 (v : Int) : List Char :=
  hexEncode (pad_i64 v)

/-- `eth::encode_bool` (`ethabi::encode` of a `Bool` token). -/
def encode_bool (v : Bool) : List Char :=
  hexEncode (List.replicate 31 0 ++ [if v then 1 else 0])

/-- Zero padding appended to dynamic bytes content: up to the next
multiple of 32 bytes. -/
def bytesPad (bs : List Nat) : List Nat :=
  bs ++ List.replicate ((32 - bs.length % 32) % 32) 0

/-- `eth::encode_bytes` (`ethabi::encode` of a `Bytes` token): offset
word `0x20`, length word, zero-padded content. -/
def encode_bytes (bs : List Nat) : List Char :=
  encode_u64 32 ++ encode_u64 bs.length ++ hexEncode (bytesPad bs)

/-- The `size` part of `eth::encode_bytes_dynamic`. -/
def encode_bytes_dynamic_size (bs : List Nat) : List Char :=
  encode_u64 bs.length

/-- The `content` part of `eth::encode_bytes_dynamic`. -/
def encode_bytes_dynamic_content (bs : List Nat) : List Char :=
  hexEncode (bytesPad bs)

/-- `eth::Fixed`. -/
inductive Fixed where
  | h256
  | h160
  | u256
deriving DecidableEq, Repr

/-- `Fixed::get`. -/
def Fixed.get (name : String) : Option Fixed :=
  if name = "H256" then some .h256
  else if name = "H160" then some .h160
  else if name = "U256" then some .u256
  else none

/-! ### Fixed big-integer sub-codec (`src/custom_ser.rs`, `src/custom_de.rs`) -/

/-- Sequential byte writes of `BasicEthSerializer::serialize_u8` for the
hash variants: `content[offset] = value; offset += 1`. -/
def writeBytesAt (content : List Nat) (p : Nat) : List Nat → List Nat
  | [] => content
  | b :: bs => writeBytesAt (content.set p (b % 256)) (p + 1) bs

/-- One `BasicEthSerializer::serialize_u64` for `U256`: bytes of the
limb written at `offset, offset-1, …, offset-7` (big-endian placement,
cursor sign `-1`). -/
def writeLimbAt (content : List Nat) (p : Nat) (l : Nat) : List Nat :=
  let c0 := content.set p (l % 256)
  let c1 := c0.set (p - 1) (l / 2 ^ 8 % 256)
  let c2 := c1.set (p - 2) (l / 2 ^ 16 % 256)
  let c3 := c2.set (p - 3) (l / 2 ^ 24 % 256)
  let c4 := c3.set (p - 4) (l / 2 ^ 32 % 256)
  let c5 := c4.set (p - 5) (l / 2 ^ 40 % 256)
  let c6 := c5.set (p - 6) (l / 2 ^ 48 % 256)
  c6.set (p - 7) (l / 2 ^ 56 % 256)

/-- Limb writes of `BasicEthSerializer` for `U256`: cursor starts at 31
and moves by `-8` per `u64` fragment. -/
def writeLimbsAt (content : List Nat) (p : Nat) : List Nat → List Nat
  | [] => content
  | l :: ls => writeLimbsAt (writeLimbAt content p l) (p - 8) ls

/-- `BasicEthSerializer::new_hash(32)` fed the 32 bytes of an `H256`. -/
def h256Content (bs : List Nat) : List Nat :=
  writeBytesAt (List.replicate 32 0) 0 bs

/-- `BasicEthSerializer::new_hash(20)` fed the 20 bytes of an `H160`
(cursor starts at `32 - 20 = 12`). -/
def h160Content (bs : List Nat) : List Nat :=
  writeBytesAt (List.replicate 32 0) 12 bs

/-- `BasicEthSerializer::new_uint(32)` fed the four little-endian `u64`
limbs of a `U256` (least significant limb first). -/
def u256Content (ls : List Nat) : List Nat :=
  writeLimbsAt (List.replicate 32 0) 31 ls

/-- Sequential byte reads of `EthFixedDeserializer::deserialize_u8`. -/
def readBytesAt (content : List Nat) (p : Nat) : Nat → List Nat
  | 0 => []
  | n + 1 => content.getD p 0 :: readBytesAt content (p + 1) n

/-- One `EthFixedDeserializer::deserialize_u64` for `U256`. -/
def readLimbAt (content : List Nat) (p : Nat) : Nat :=
  content.getD p 0 + content.getD (p - 1) 0 * 2 ^ 8 +
  content.getD (p - 2) 0 * 2 ^ 16 + content.getD (p - 3) 0 * 2 ^ 24 +
  content.getD (p - 4) 0 * 2 ^ 32 + content.getD (p - 5) 0 * 2 ^ 40 +
  content.getD (p - 6) 0 * 2 ^ 48 + content.getD (p - 7) 0 * 2 ^ 56

/-- Limb reads of `EthFixedDeserializer` for `U256`. -/
def readLimbsAt (content : List Nat) (p : Nat) : Nat → List Nat
  | 0 => []
  | n + 1 => readLimbAt content p :: readLimbsAt content (p - 8) n

/-! ### Layout tree (`src/ser.rs`) -/

/-- `ser::Node`. -/
inductive Node where
  | fixedN : List Char → Node
  | dynamicN : List Char → Node
  | seqN : List Node → Node
  | tupleN : List Node → Node

/-- `Node::calculate_header_len_from_simple_nodes`: actual byte length
of each Fixed child plus 32 bytes per Dynamic child.  The compound
cases are unreachable in the source (`unreachable!()`). -/
def calculate_header_len : List Node → Nat
  | [] => 0
  | .fixedN h :: rest => h.length / 2 + calculate_header_len rest
  | .dynamicN _ :: rest => 32 + calculate_header_len rest
  | _ :: rest => calculate_header_len rest

/-- The shared head/tail/offset fold of
`Node::aggregate_simple_nodes_in_sequence` and
`Node::aggregate_simple_nodes_in_tuple`. -/
def aggGo : List Node → List Char → List Char → Nat → List Char × List Char
  | [], head, tail, _ => (head, tail)
  | .fixedN h :: rest, head, tail, off => aggGo rest (head ++ h) tail off
  | .dynamicN t :: rest, head, tail, off =>
    aggGo rest (head ++ encode_u64 off) (tail ++ t) (off + t.length / 2)
  | _ :: rest, head, tail, off => aggGo rest head tail off

/-- `Node::aggregate_simple_nodes_in_sequence`. -/
def aggregateSeq (nodes : List Node) : Node :=
  let r := aggGo nodes (encode_u64 nodes.length) [] (calculate_header_len nodes)
  .dynamicN (r.1 ++ r.2)

/-- `Node::should_tuple_have_head`. -/
def shouldTupleHaveHead (nodes : List Node) : Bool :=
  nodes.any fun n => match n with | .dynamicN _ => true | _ => false

/-- `Node::aggregate_simple_nodes_in_tuple`. -/
def aggregateTuple (nodes : List Node) : Node :=
  let r := aggGo nodes [] [] (calculate_header_len nodes)
  if shouldTupleHaveHead nodes then .dynamicN (r.1 ++ r.2)
  else .fixedN (r.1 ++ r.2)

mutual

/-- `Node::serialize_node_to_simple` composed with
`Node::serialize_compound_to_simple`. -/
def serializeNodeToSimple : Node → Node
  | .fixedN h => .fixedN h
  | .dynamicN c => .dynamicN c
  | .seqN v => aggregateSeq (simplifyNodes v)
  | .tupleN v => aggregateTuple (simplifyNodes v)

/-- The child-reduction loop of `Node::serialize_compound_to_simple`. -/
def simplifyNodes : List Node → List Node
  | [] => []
  | n :: rest => serializeNodeToSimple n :: simplifyNodes rest

end

/-- `Node::serialize_dynamic`: prepend the single offset word `32`. -/
def serialize_dynamic (content : List Char) : List Char :=
  encode_u64 32 ++ content

/-- `Node::serialize` on an already simple node. -/
def serializeSimpleNode : Node → List Char
  | .fixedN h => h
  | .dynamicN c => serialize_dynamic c
  | _ => []

/-- `Node::serialize`. -/
def serializeNode : Node → List Char
  | .fixedN h => h
  | .dynamicN c => serialize_dynamic c
  | .seqN v => serializeSimpleNode (aggregateSeq (simplifyNodes v))
  | .tupleN v => serializeSimpleNode (aggregateTuple (simplifyNodes v))

/-! ### The value universe and the event-driven encoder adapter

A `Value` stands for a Rust value of the supported type universe, as
the serde data model presents it to the serializers of `src/ser.rs`:
strings and chars carry their UTF-8 bytes, `H256`/`H160` their bytes,
`U256` its four little-endian `u64` limbs.  Fixed-length arrays drive
`serialize_tuple` exactly like tuples and structs do, so they share
the `tupV` constructor.
-/

inductive Value where
  | boolV : Bool → Value
  | u8V : Nat → Value
  | u16V : Nat → Value
  | u32V : Nat → Value
  | u64V : Nat → Value
  | i8V : Int → Value
  | i16V : Int → Value
  | i32V : Int → Value
  | i64V : Int → Value
  | strV : List Nat → Value
  | charV : List Nat → Value
  | bytesV : List Nat → Value
  | noneV : Value
  | someV : Value → Value
  | seqV : List Value → Value
  | tupV : List Value → Value
  | h256V : List Nat → Value
  | h160V : List Nat → Value
  | u256V : List Nat → Value

mutual

/-- The node built for one value by `NodeSerializer` (`src/ser.rs`):
primitives push `Node::Fixed` words, bytes-like values push
`Node::Dynamic`, `serialize_none`/`serialize_some` go through
`serialize_seq(0)`/`serialize_seq(1)`, sequences and tuples build
compound nodes from their children, and the fixed big-integer types
push the `Node::Fixed` word produced by `BasicEthSerializer`. -/
def buildNode : Value → Node
  | .boolV b => .fixedN (encode_bool b)
  | .u8V n => .fixedN (encode_u64 n)
  | .u16V n => .fixedN (encode_u64 n)
  | .u32V n => .fixedN (encode_u64 n)
  | .u64V n => .fixedN (encode_u64 n)
  | .i8V v => .fixedN (encode_i64 v)
  | .i16V v => .fixedN (encode_i64 v)
  | .i32V v => .fixedN (encode_i64 v)
  | .i64V v => .fixedN (encode_i64 v)
  | .strV bs => .dynamicN (encode_bytes_dynamic_size bs ++ encode_bytes_dynamic_content bs)
  | .charV bs => .dynamicN (encode_bytes_dynamic_size bs ++ encode_bytes_dynamic_content bs)
  | .bytesV bs => .dynamicN (encode_bytes_dynamic_size bs ++ encode_bytes_dynamic_content bs)
  | .noneV => .seqN []
  | .someV v => .seqN [buildNode v]
  | .seqV vs => .seqN (buildNodes vs)
  | .tupV vs => .tupleN (buildNodes vs)
  | .h256V bs => .fixedN (hexEncode (h256Content bs))
  | .h160V bs => .fixedN (hexEncode (h160Content bs))
  | .u256V ls => .fixedN (hexEncode (u256Content ls))

/-- Children of a compound, pushed in event order. -/
def buildNodes : List Value → List Node
  | [] => []
  | v :: vs => buildNode v :: buildNodes vs

end

/-- `ser::to_string`: the top-level `Serializer` writes primitive and
bytes-like values directly (`eth::encode_*`), drives
`BasicEthSerializer` for the fixed big-integer types, and linearizes a
layout tree for compounds. -/
def to_string : Value → List Char
  | .boolV b => encode_bool b
  | .u8V n => encode_u64 n
  | .u16V n => encode_u64 n
  | .u32V n => encode_u64 n
  | .u64V n => encode_u64 n
  | .i8V v => encode_i64 v
  | .i16V v => encode_i64 v
  | .i32V v => encode_i64 v
  | .i64V v => encode_i64 v
  | .strV bs => encode_bytes bs
  | .charV bs => encode_bytes bs
  | .bytesV bs => encode_bytes bs
  | .h256V bs => hexEncode (h256Content bs)
  | .h160V bs => hexEncode (h160Content bs)
  | .u256V ls => hexEncode (u256Content ls)
  | v => serializeNode (buildNode v)

mutual

/-- Follows the claim's words (C8), for comparison with the encoder:
the classes of values the spec calls dynamic at top level — strings,
byte arrays, chars, options, variable-length sequences, and tuples or
structs with at least one dynamic member. -/
def Value.isDynamic : Value → Bool
  | .strV _ => true
  | .charV _ => true
  | .bytesV _ => true
  | .noneV => true
  | .someV _ => true
  | .seqV _ => true
  | .tupV vs => Value.anyDynamic vs
  | _ => false

/-- Some member of the list is dynamic (per the claim's classes). -/
def Value.anyDynamic : List Value → Bool
  | [] => false
  | v :: vs => Value.isDynamic v || Value.anyDynamic vs

end

/-! ### Decoder (`src/de.rs`)

The decoder is driven by the shape of the target type, exactly as
serde's `Deserialize` implementations drive `de::Deserializer`.
-/

/-- The type universe a decode is driven by.  `arrT` is a fixed-length
array (serde deserializes it through `deserialize_tuple`), `tupT`
covers tuples, tuple structs and structs, and the three fixed
big-integer types reach `deserialize_tuple` through
`deserialize_newtype_struct`. -/
inductive Ty where
  | boolT
  | u8T
  | u16T
  | u32T
  | u64T
  | i8T
  | i16T
  | i32T
  | i64T
  | strT
  | charT
  | bytesT
  | optT : Ty → Ty
  | seqT : Ty → Ty
  | arrT : Ty → Nat → Ty
  | tupT : List Ty → Ty
  | h256T
  | h160T
  | u256T

/-- `de::BaseType`. -/
inductive BaseType where
  | staticB
  | dynamicB
deriving DecidableEq, Repr

/-- `de::Scope`. -/
structure Scope where
  offset : Nat
  readHead : Nat
  readTail : Nat
  types : List BaseType
deriving DecidableEq, Repr

/-- `Scope::new`. -/
def Scope.new (offset : Nat) : Scope :=
  ⟨offset, 0, 0, []⟩

/-- `Scope::has_dynamic_types`. -/
def Scope.hasDynamicTypes (sc : Scope) : Bool :=
  sc.types.any fun t => match t with | .dynamicB => true | _ => false

/-- `de::RefReadSeek` over an `io::Cursor`: the hex characters and the
cursor position. -/
structure RState where
  data : List Char
  pos : Nat
deriving DecidableEq, Repr

/-- `Seek::seek(SeekFrom::Start(x))` on a cursor. -/
def seekStart (x : Nat) (r : RState) : RState :=
  { r with pos := x }

/-- `Seek::seek(SeekFrom::Current(d))` on a cursor, for the forward
seeks of the source (`d ≥ 0`). -/
def seekFwd (d : Nat) (r : RState) : RState :=
  { r with pos := r.pos + d }

/-- `Seek::seek(SeekFrom::Current(-d))` on a cursor: the source only
seeks backwards right after reading at least `d` bytes, so the cursor
position cannot go below zero. -/
def seekBack (d : Nat) (r : RState) : RState :=
  { r with pos := r.pos - d }

/-- `Deserializer::must_read`: a cursor read yields
`min n (len - pos)` bytes, so the loop either fills the buffer and
advances the position by `n`, or consumes the remaining data and fails
with `"insufficient bytes read from reader"`. -/
def mustRead (n : Nat) (r : RState) : Except Err (List Char) × RState :=
  if n = 0 then (.ok [], r)
  else if r.pos + n ≤ r.data.length then
    (.ok ((r.data.drop r.pos).take n), { r with pos := r.pos + n })
  else
    (.error (.message "insufficient bytes read from reader"),
     { r with pos := max r.pos r.data.length })

/-- `Deserializer::end`. -/
def endFn (r : RState) : Except Err Unit :=
  match (mustRead 1 r).1 with
  | .ok _ => .error (.parsing "input has not been processed completely")
  | .error err =>
    match err.classify with
    | .data => .ok ()
    | _ => .error (.parsing "failed to verify if reader is empty")

/-- The tuple-hint map (`HashMap<u64, BaseType>`), as an association
list whose most recent insertion wins. -/
def lookupHint (hints : List (Nat × BaseType)) (k : Nat) : Option BaseType :=
  match hints.find? (fun p => p.1 == k) with
  | some p => some p.2
  | none => none

/-- `HashMap::contains_key`. -/
def containsHint (hints : List (Nat × BaseType)) (k : Nat) : Bool :=
  (lookupHint hints k).isSome

/-- `HashMap::insert` (fresh keys only in `from_reader`). -/
def insertHint (hints : List (Nat × BaseType)) (k : Nat) (v : BaseType) :
    List (Nat × BaseType) :=
  (k, v) :: hints

/-- `de::Deserializer`'s state: tuple counter, pending fixed
big-integer sub-deserializer, reader, tuple hints and scope stack. -/
structure DState where
  tupleCounter : Nat
  custom : Option Fixed
  reader : RState
  hints : List (Nat × BaseType)
  scopes : List Scope
deriving DecidableEq

/-- The recurring `pop_scope`/modify/`push_scope` idiom. -/
def topScopeModify (f : Scope → Scope) (s : DState) : DState :=
  match s.scopes with
  | [] => s
  | sc :: rest => { s with scopes := f sc :: rest }

/-- `Deserializer::read_uint_head`. -/
def readUintHead (size : Nat) (s : DState) : Except Err Nat × DState :=
  match mustRead 64 s.reader with
  | (.error e, r) => (.error e, { s with reader := r })
  | (.ok bytes, r) =>
    (decode_uint bytes size,
     topScopeModify (fun sc => { sc with readHead := sc.readHead + 64 }) { s with reader := r })

/-- `Deserializer::read_uint_tail`. -/
def readUintTail (size : Nat) (s : DState) : Except Err Nat × DState :=
  match mustRead 64 s.reader with
  | (.error e, r) => (.error e, { s with reader := r })
  | (.ok bytes, r) =>
    (decode_uint bytes size,
     topScopeModify (fun sc => { sc with readTail := sc.readTail + 64 }) { s with reader := r })

/-- `Deserializer::read_int_head`. -/
def readIntHead (size : Nat) (s : DState) : Except Err Int × DState :=
  match mustRead 64 s.reader with
  | (.error e, r) => (.error e, { s with reader := r })
  | (.ok bytes, r) =>
    (decode_int bytes size,
     topScopeModify (fun sc => { sc with readHead := sc.readHead + 64 }) { s with reader := r })

/-- `Deserializer::peek_uint`: read the next 64 hex characters, seek 64
bytes back, decode as an unsigned integer. -/
def peekUint (size : Nat) (s : DState) : Except Err Nat × DState :=
  match mustRead 64 s.reader with
  | (.error e, r) => (.error e, { s with reader := r })
  | (.ok bytes, r) =>
    (decode_uint bytes size, { s with reader := seekBack 64 r })

/-- `Deserializer::deserialize_uint`: record a Static child, then read
a head word. -/
def deserializeUint (size : Nat) (s : DState) : Except Err Nat × DState :=
  readUintHead size
    (topScopeModify (fun sc => { sc with types := sc.types ++ [.staticB] }) s)

/-- `Deserializer::deserialize_int`. -/
def deserializeInt (size : Nat) (s : DState) : Except Err Int × DState :=
  readIntHead size
    (topScopeModify (fun sc => { sc with types := sc.types ++ [.staticB] }) s)

/-- `Deserializer::deserialize_bool`. -/
def deserializeBool (s : DState) : Except Err Bool × DState :=
  let s := topScopeModify (fun sc => { sc with types := sc.types ++ [.staticB] }) s
  match mustRead 64 s.reader with
  | (.error e, r) => (.error e, { s with reader := r })
  | (.ok bytes, r) => (decode_bool bytes, { s with reader := r })

/-- `Deserializer::read_byte_array`.  Note: there is no allocation
ceiling of any kind; the declared length directly determines how many
characters are read.  `bytes_offset << 1`, `len << 1` and
`base + (remain << 6)` are `u64` operations that silently wrap, modelled
with an explicit `% 2^64`. -/
def readByteArray (s : DState) : Except Err (List Nat) × DState :=
  match readUintHead 64 s with
  | (.error e, s) => (.error e, s)
  | (.ok bytesOffset, s) =>
    let st : Nat × DState :=
      match s.scopes with
      | sc :: rest =>
        ((bytesOffset * 2 % 2 ^ 64 + sc.offset) % 2 ^ 64,
         { s with scopes := { sc with types := sc.types ++ [.dynamicB] } :: rest })
      | [] => (bytesOffset * 2 % 2 ^ 64, s)
    let s := { st.2 with reader := seekStart st.1 st.2.reader }
    match readUintTail 64 s with
    | (.error e, s) => (.error e, s)
    | (.ok len, s) =>
      let readBytes := len * 2 % 2 ^ 64
      let base := readBytes / 64 * 64
      let remain := if readBytes - base = 0 then 0 else 1
      let readLen := (base + remain * 64) % 2 ^ 64
      match mustRead readLen s.reader with
      | (.error e, r) => (.error e, { s with reader := r })
      | (.ok readData, r) =>
        let s := topScopeModify
          (fun sc => { sc with readTail := sc.readTail + 64 + readLen })
          { s with reader := r }
        (decode_bytes readData len, s)

/-! UTF-8, modelling `std::str::from_utf8` (an external collaborator):
standard validation with overlong/surrogate checks. -/

/-- Length of the UTF-8 sequence led by byte `b`. -/
def utf8CharLen (b : Nat) : Nat :=
  if b < 0x80 then 1 else if b < 0xe0 then 2 else if b < 0xf0 then 3 else 4

/-- A UTF-8 continuation byte. -/
def utf8Cont (b : Nat) : Bool :=
  decide (0x80 ≤ b ∧ b < 0xc0)

/-- Modelled from the spec: `std::str::from_utf8` validity. -/
def utf8Valid : List Nat → Bool
  | [] => true
  | b :: rest =>
    if b < 0x80 then utf8Valid rest
    else if b < 0xc2 then false
    else if b < 0xe0 then
      match rest with
      | b1 :: rest' => utf8Cont b1 && utf8Valid rest'
      | [] => false
    else if b < 0xf0 then
      match rest with
      | b1 :: b2 :: rest' =>
        (if b = 0xe0 then decide (0xa0 ≤ b1 ∧ b1 < 0xc0)
         else if b = 0xed then decide (0x80 ≤ b1 ∧ b1 < 0xa0)
         else utf8Cont b1) && utf8Cont b2 && utf8Valid rest'
      | _ => false
    else if b < 0xf5 then
      match rest with
      | b1 :: b2 :: b3 :: rest' =>
        (if b = 0xf0 then decide (0x90 ≤ b1 ∧ b1 < 0xc0)
         else if b = 0xf4 then decide (0x80 ≤ b1 ∧ b1 < 0x90)
         else utf8Cont b1) && utf8Cont b2 && utf8Cont b3 && utf8Valid rest'
      | _ => false
    else false

/-- The UTF-8 bytes of `s.chars().next()` on a valid string. -/
def firstUtf8Char (bs : List Nat) : List Nat :=
  bs.take (utf8CharLen (bs.headD 0))

/-- `Deserializer::read_str` (the value is the string's UTF-8 bytes). -/
def readStr (s : DState) : Except Err (List Nat) × DState :=
  match readByteArray s with
  | (.error e, s) => (.error e, s)
  | (.ok bytes, s) =>
    if utf8Valid bytes then (.ok bytes, s)
    else (.error (.parsing "parsed byte array cannot decode to a char"), s)

/-- `Deserializer::read_char` (the value is the char's UTF-8 bytes). -/
def readChar (s : DState) : Except Err (List Nat) × DState :=
  match readByteArray s with
  | (.error e, s) => (.error e, s)
  | (.ok bytes, s) =>
    if bytes.length > 4 then
      (.error (.parsing "parsed char from byte array longer than 4 bytes"), s)
    else if utf8Valid bytes then
      match bytes with
      | [] => (.error (.parsing "parsed byte array cannot decode to a char"), s)
      | _ => (.ok (firstUtf8Char bytes), s)
    else (.error (.parsing "parsed byte array cannot decode to a char"), s)

/-- The value reconstructed by `EthFixedAccess`/`EthFixedDeserializer`
(`src/custom_de.rs`) from the 32 bytes of one word. -/
def ethFixedValue (t : Fixed) (bs : List Nat) : Value :=
  match t with
  | .h256 => .h256V (readBytesAt bs 0 32)
  | .h160 => .h160V (readBytesAt bs 12 20)
  | .u256 => .u256V (readLimbsAt bs 31 4)

/-- `Deserializer::read_custom_tuple`. -/
def readCustomTuple (t : Fixed) (s : DState) : Except Err Value × DState :=
  let s := topScopeModify
    (fun sc => { sc with types := sc.types ++ [.staticB], readHead := sc.readHead + 64 }) s
  match mustRead 64 s.reader with
  | (.error e, r) => (.error e, { s with reader := r })
  | (.ok bytes, r) =>
    let s := { s with reader := r }
    match decode_bytes bytes 32 with
    | .error e => (.error e, s)
    | .ok bs => (.ok (ethFixedValue t bs), s)

/-- `DynamicTupleAccess::get_error`. -/
def getError (s : DState) (error : Err) : Err :=
  match error.classify with
  | .data =>
    let hasDynamicTypes :=
      match s.scopes with
      | sc :: _ => sc.hasDynamicTypes
      | [] => false
    if error.description = "insufficient bytes read from reader" ∧ hasDynamicTypes = false then
      .tupleHintE ⟨s.tupleCounter, false⟩ error
    else error
  | _ => error

/-- An element decoder, as handed to the `SeqAccess` loops. -/
abbrev Dec := DState → Except Err Value × DState

/-- The re-anchoring between siblings shared by the three `SeqAccess`
loops: seek back to `scope.offset + scope.read_head` while elements
remain. -/
def siblingReseek (count len : Nat) (s : DState) : DState :=
  match s.scopes with
  | sc :: _ =>
    if count < len then { s with reader := seekStart (sc.offset + sc.readHead) s.reader }
    else s
  | [] => s

/-- `StaticTupleAccess::next_element_seed`, iterated: the bookkeeping
runs even when the element failed, and the error is returned
unchanged. -/
def staticTupleLoop (decs : List Dec) (count len : Nat) (acc : List Value) (s : DState) :
    Except Err (List Value) × DState :=
  match decs with
  | [] => (.ok acc.reverse, s)
  | d :: rest =>
    let r := d s
    let s := siblingReseek count len r.2
    match r.1 with
    | .error e => (.error e, s)
    | .ok v => staticTupleLoop rest (count + 1) len (v :: acc) s

/-- `DynamicTupleAccess::next_element_seed`, iterated: an element error
is converted through `get_error` and returned before any
bookkeeping. -/
def dynamicTupleLoop (decs : List Dec) (count len : Nat) (acc : List Value) (s : DState) :
    Except Err (List Value) × DState :=
  match decs with
  | [] => (.ok acc.reverse, s)
  | d :: rest =>
    let r := d s
    match r.1 with
    | .error e => (.error (getError r.2 e), r.2)
    | .ok v =>
      let s := siblingReseek count len r.2
      dynamicTupleLoop rest (count + 1) len (v :: acc) s

/-- `SeqAccess::next_element_seed`, iterated `len` times. -/
def seqLoop (d : Dec) : Nat → Nat → Nat → List Value → DState →
    Except Err (List Value) × DState
  | 0, _, _, acc, s => (.ok acc.reverse, s)
  | m + 1, count, len, acc, s =>
    let r := d s
    let s := siblingReseek count len r.2
    match r.1 with
    | .error e => (.error e, s)
    | .ok v => seqLoop d m (count + 1) len (v :: acc) s

/-- `Deserializer::read_static_size_tuple`. -/
def readStaticSizeTuple (base : Nat) (decs : List Dec) (s : DState) :
    Except Err Value × DState :=
  let offset :=
    match s.scopes with
    | sc :: _ => base + sc.readHead
    | [] => base
  let s := { s with scopes := Scope.new offset :: s.scopes }
  let r := staticTupleLoop decs 1 decs.length [] s
  match r.2.scopes with
  | sc :: rest =>
    let s := { r.2 with scopes := rest, reader := seekFwd sc.readTail r.2.reader }
    let s := topScopeModify (fun p => { p with readHead := p.readHead + sc.readHead }) s
    (r.1.map .tupV, s)
  | [] => (r.1.map .tupV, r.2)

/-- `Deserializer::read_dynamic_size_tuple`. -/
def readDynamicSizeTuple (base : Nat) (decs : List Dec) (s : DState) :
    Except Err Value × DState :=
  match readUintHead 64 s with
  | (.error e, s) => (.error e, s)
  | (.ok tupleOffset, s) =>
    let offset := tupleOffset * 2 + base
    let s := { s with reader := seekStart offset s.reader }
    let s := { s with scopes := Scope.new offset :: s.scopes }
    let r := dynamicTupleLoop decs 1 decs.length [] s
    match r.2.scopes with
    | sc :: rest =>
      let s := { r.2 with scopes := rest, reader := seekFwd sc.readTail r.2.reader }
      let s := topScopeModify (fun p => { p with readHead := p.readHead + sc.readHead }) s
      (r.1.map .tupV, s)
    | [] => (r.1.map .tupV, r.2)

/-- The scope interaction at the top of `deserialize_tuple` (and of
`deserialize_seq`/`deserialize_option`): remember the enclosing
scope's offset and record a Dynamic child in it. -/
def tupleBase (s : DState) : Nat × DState :=
  match s.scopes with
  | [] => (0, s)
  | sc :: rest =>
    (sc.offset, { s with scopes := { sc with types := sc.types ++ [.dynamicB] } :: rest })

/-- `Deserializer::deserialize_tuple`: bump the tuple counter, divert
to the fixed big-integer sub-codec when a recognized newtype wrapper is
pending, follow a recorded hint when one exists for this tuple's
identifier, and otherwise guess from the peeked word's divisibility by
32. -/
def deserializeTuple (decs : List Dec) (s0 : DState) : Except Err Value × DState :=
  let b := tupleBase { s0 with tupleCounter := s0.tupleCounter + 1 }
  let base := b.1
  let s := b.2
  match s.custom with
  | some t => readCustomTuple t { s with custom := none }
  | none =>
    match lookupHint s.hints s.tupleCounter with
    | some .staticB => readStaticSizeTuple base decs s
    | some .dynamicB => readDynamicSizeTuple base decs s
    | none =>
      match peekUint 64 s with
      | (.error e, s) => (.error e, s)
      | (.ok tupleOffset, s) =>
        if tupleOffset % 32 = 0 then readDynamicSizeTuple base decs s
        else readStaticSizeTuple base decs s

/-- `Deserializer::deserialize_option`. -/
def deserializeOption (d : Dec) (s : DState) : Except Err Value × DState :=
  let b := tupleBase s
  let base := b.1
  let s := b.2
  match readUintHead 64 s with
  | (.error e, s) => (.error e, s)
  | (.ok seqOffset, s) =>
    let offset := seqOffset * 2 + base
    let s := { s with reader := seekStart offset s.reader }
    match readUintTail 64 s with
    | (.error e, s) => (.error e, s)
    | (.ok len, s) =>
      if len = 0 then (.ok .noneV, s)
      else
        let s := { s with scopes := Scope.new (64 + offset) :: s.scopes }
        let r := d s
        match r.2.scopes with
        | _ :: rest => (r.1.map .someV, { r.2 with scopes := rest })
        | [] => (r.1.map .someV, r.2)

/-- `Deserializer::deserialize_seq`. -/
def deserializeSeq (d : Dec) (s : DState) : Except Err Value × DState :=
  let b := tupleBase s
  let base := b.1
  let s := b.2
  match readUintHead 64 s with
  | (.error e, s) => (.error e, s)
  | (.ok seqOffset, s) =>
    let offset := seqOffset * 2 + base
    let s := { s with reader := seekStart offset s.reader }
    match readUintTail 64 s with
    | (.error e, s) => (.error e, s)
    | (.ok len, s) =>
      let s := { s with scopes := Scope.new (64 + offset) :: s.scopes }
      let r := seqLoop d len 1 len [] s
      match r.2.scopes with
      | _ :: rest => (r.1.map .seqV, { r.2 with scopes := rest })
      | [] => (r.1.map .seqV, r.2)

mutual

/-- The type-driven decode: the dispatch of serde's `Deserialize`
implementations into `de::Deserializer`'s methods. -/
def decodeTy : Ty → Dec
  | .boolT => fun s =>
    let r := deserializeBool s
    match r.1 with
    | .error e => (.error e, r.2)
    | .ok b => (.ok (.boolV b), r.2)
  | .u8T => fun s =>
    let r := deserializeUint 8 s
    match r.1 with
    | .error e => (.error e, r.2)
    | .ok v => (.ok (.u8V (v % 2 ^ 8)), r.2)
  | .u16T => fun s =>
    let r := deserializeUint 16 s
    match r.1 with
    | .error e => (.error e, r.2)
    | .ok v => (.ok (.u16V (v % 2 ^ 16)), r.2)
  | .u32T => fun s =>
    let r := deserializeUint 32 s
    match r.1 with
    | .error e => (.error e, r.2)
    | .ok v => (.ok (.u32V (v % 2 ^ 32)), r.2)
  | .u64T => fun s =>
    let r := deserializeUint 64 s
    match r.1 with
    | .error e => (.error e, r.2)
    | .ok v => (.ok (.u64V v), r.2)
  | .i8T => fun s =>
    let r := deserializeInt 8 s
    match r.1 with
    | .error e => (.error e, r.2)
    | .ok v => (.ok (.i8V (i64AsIw 8 v)), r.2)
  | .i16T => fun s =>
    let r := deserializeInt 16 s
    match r.1 with
    | .error e => (.error e, r.2)
    | .ok v => (.ok (.i16V (i64AsIw 16 v)), r.2)
  | .i32T => fun s =>
    let r := deserializeInt 32 s
    match r.1 with
    | .error e => (.error e, r.2)
    | .ok v => (.ok (.i32V (i64AsIw 32 v)), r.2)
  | .i64T => fun s =>
    let r := deserializeInt 64 s
    match r.1 with
    | .error e => (.error e, r.2)
    | .ok v => (.ok (.i64V v), r.2)
  | .strT => fun s =>
    let r := readStr s
    match r.1 with
    | .error e => (.error e, r.2)
    | .ok bs => (.ok (.strV bs), r.2)
  | .charT => fun s =>
    let r := readChar s
    match r.1 with
    | .error e => (.error e, r.2)
    | .ok bs => (.ok (.charV bs), r.2)
  | .bytesT => fun s =>
    let r := readByteArray s
    match r.1 with
    | .error e => (.error e, r.2)
    | .ok bs => (.ok (.bytesV bs), r.2)
  | .optT t => fun s => deserializeOption (decodeTy t) s
  | .seqT t => fun s => deserializeSeq (decodeTy t) s
  | .arrT t n => fun s => deserializeTuple (List.replicate n (decodeTy t)) s
  | .tupT ts => fun s => deserializeTuple (decodeTys ts) s
  | .h256T => fun s => deserializeTuple [] { s with custom := Fixed.get "H256" }
  | .h160T => fun s => deserializeTuple [] { s with custom := Fixed.get "H160" }
  | .u256T => fun s => deserializeTuple [] { s with custom := Fixed.get "U256" }

/-- Element decoders of a heterogeneous tuple, in order. -/
def decodeTys : List Ty → List Dec
  | [] => []
  | t :: ts => decodeTy t :: decodeTys ts

end

/-- `de::from_reader`'s retry loop.  The source loop terminates because
every retry inserts a hint at an index not yet in the map; the fuel
argument makes that termination explicit and `from_str` passes more
fuel than any input can consume. -/
def fromReaderAux (ty : Ty) : Nat → List (Nat × BaseType) → RState → Except Err Value
  | 0, _, _ => .error (.message "retry fuel exhausted")
  | fuel + 1, hints, rdr =>
    let r := decodeTy ty ⟨0, none, rdr, hints, []⟩
    match r.1 with
    | .error err =>
      match err.tupleHint with
      | none => .error err
      | some hint =>
        if containsHint hints hint.index then .error err
        else
          fromReaderAux ty fuel
            (insertHint hints hint.index (if hint.isDynamic then .dynamicB else .staticB))
            (seekStart 0 r.2.reader)
    | .ok v =>
      match endFn r.2.reader with
      | .ok _ => .ok v
      | .error e => .error e

/-- `de::from_str`. -/
def from_str (ty : Ty) (s : List Char) : Except Err Value :=
  fromReaderAux ty (s.length + 2) [] ⟨s, 0⟩

mutual

/-- Structural equality test for values. -/
def Value.beq : Value → Value → Bool
  | .boolV a, .boolV b => a == b
  | .u8V a, .u8V b => a == b
  | .u16V a, .u16V b => a == b
  | .u32V a, .u32V b => a == b
  | .u64V a, .u64V b => a == b
  | .i8V a, .i8V b => a == b
  | .i16V a, .i16V b => a == b
  | .i32V a, .i32V b => a == b
  | .i64V a, .i64V b => a == b
  | .strV a, .strV b => a == b
  | .charV a, .charV b => a == b
  | .bytesV a, .bytesV b => a == b
  | .noneV, .noneV => true
  | .someV a, .someV b => Value.beq a b
  | .seqV a, .seqV b => Value.beqList a b
  | .tupV a, .tupV b => Value.beqList a b
  | .h256V a, .h256V b => a == b
  | .h160V a, .h160V b => a == b
  | .u256V a, .u256V b => a == b
  | _, _ => false

/-- Elementwise equality test for value lists. -/
def Value.beqList : List Value → List Value → Bool
  | [], [] => true
  | a :: as, b :: bs => Value.beq a b && Value.beqList as bs
  | _, _ => false

end

instance : BEq Value := ⟨Value.beq⟩

/-- The description of a decode failure (empty on success). -/
def resDesc : Except Err Value → String
  | .error e => e.description
  | .ok _ => ""

/-- `from_str` succeeds with exactly the given value. -/
def decodesTo (ty : Ty) (s : List Char) (v : Value) : Bool :=
  match from_str ty s with
  | .ok v2 => Value.beq v2 v
  | .error _ => false

/-- The serde target type a flat (non-compound) value decodes at: the
type its Rust value has. -/
def flatTy : Value → Ty
  | .boolV _ => .boolT
  | .u8V _ => .u8T
  | .u16V _ => .u16T
  | .u32V _ => .u32T
  | .u64V _ => .u64T
  | .i8V _ => .i8T
  | .i16V _ => .i16T
  | .i32V _ => .i32T
  | .i64V _ => .i64T
  | .strV _ => .strT
  | .charV _ => .charT
  | .bytesV _ => .bytesT
  | .h256V _ => .h256T
  | .h160V _ => .h160T
  | .u256V _ => .u256T
  | _ => .boolT

/-- Well-formedness of a flat value as the corresponding Rust value:
integers within their machine width, strings/chars valid UTF-8 byte
lists, byte entries below 256, `H256`/`H160`/`U256` of their fixed
shape.  Compound values are not flat. -/
def flatOk : Value → Bool
  | .boolV _ => true
  | .u8V n => decide (n < 2 ^ 8)
  | .u16V n => decide (n < 2 ^ 16)
  | .u32V n => decide (n < 2 ^ 32)
  | .u64V n => decide (n < 2 ^ 64)
  | .i8V v => decide (-(2 ^ 7) ≤ v ∧ v < 2 ^ 7)
  | .i16V v => decide (-(2 ^ 15) ≤ v ∧ v < 2 ^ 15)
  | .i32V v => decide (-(2 ^ 31) ≤ v ∧ v < 2 ^ 31)
  | .i64V v => decide (-(2 ^ 63) ≤ v ∧ v < 2 ^ 63)
  | .strV bs => utf8Valid bs && bs.all (fun b => decide (b < 256)) &&
      decide (bs.length + 32 ≤ 2 ^ 63)
  | .charV bs => utf8Valid bs && bs.all (fun b => decide (b < 256)) &&
      decide (bs ≠ [] ∧ bs.length = utf8CharLen (bs.headD 0))
  | .bytesV bs => bs.all (fun b => decide (b < 256)) && decide (bs.length + 32 ≤ 2 ^ 63)
  | .h256V bs => bs.all (fun b => decide (b < 256)) && decide (bs.length = 32)
  | .h160V bs => bs.all (fun b => decide (b < 256)) && decide (bs.length = 20)
  | .u256V ls => ls.all (fun l => decide (l < 2 ^ 64)) && decide (ls.length = 4)
  | _ => false


/-! Validation of the decoder against the test vectors of `src/de.rs`. -/

example : decodesTo .boolT
    "0000000000000000000000000000000000000000000000000000000000000001".toList
    (.boolV true) = true := by decide

example : resDesc (from_str .boolT
    ("0x0000000000000000000000000000000000000000000000000000000000000000").toList) =
    "invalid character" := by decide

example : resDesc (from_str .boolT
    ("000000000000000000000000000000000000000000000000000000000000000000").toList) =
    "input has not been processed completely" := by decide

example : resDesc (from_str .boolT "0".toList) =
    "insufficient bytes read from reader" := by decide

example : resDesc (from_str .boolT "".toList) =
    "insufficient bytes read from reader" := by decide

example : decodesTo .u8T
    "0000000000000000000000000000000000000000000000000000000000000080".toList
    (.u8V 0x80) = true := by decide

example : decodesTo .i8T
    "ffffffffffffffffffffffffffffffffffffffffffffffffffffffffffffff80".toList
    (.i8V (-128)) = true := by decide

example : decodesTo .i64T
    "ffffffffffffffffffffffffffffffffffffffffffffffff8000000000000000".toList
    (.i64V (-9223372036854775808)) = true := by decide

example : decodesTo .strT
    ("0000000000000000000000000000000000000000000000000000000000000020" ++
     "0000000000000000000000000000000000000000000000000000000000000005" ++
     "68656c6c6f000000000000000000000000000000000000000000000000000000").toList
    (.strV [0x68, 0x65, 0x6c, 0x6c, 0x6f]) = true := by decide

example : decodesTo .charT
    ("0000000000000000000000000000000000000000000000000000000000000020" ++
     "0000000000000000000000000000000000000000000000000000000000000002" ++
     "c3a9000000000000000000000000000000000000000000000000000000000000").toList
    (.charV [0xc3, 0xa9]) = true := by decide

example : decodesTo (.optT .strT)
    ("0000000000000000000000000000000000000000000000000000000000000020" ++
     "0000000000000000000000000000000000000000000000000000000000000000").toList
    .noneV = true := by decide

example : decodesTo (.optT .strT)
    ("0000000000000000000000000000000000000000000000000000000000000020" ++
     "0000000000000000000000000000000000000000000000000000000000000001" ++
     "0000000000000000000000000000000000000000000000000000000000000020" ++
     "0000000000000000000000000000000000000000000000000000000000000005" ++
     "68656c6c6f000000000000000000000000000000000000000000000000000000").toList
    (.someV (.strV [0x68, 0x65, 0x6c, 0x6c, 0x6f])) = true := by decide

example : decodesTo (.tupT [.u64T, .strT])
    ("0000000000000000000000000000000000000000000000000000000000000020" ++
     "0000000000000000000000000000000000000000000000000000000000000001" ++
     "0000000000000000000000000000000000000000000000000000000000000040" ++
     "0000000000000000000000000000000000000000000000000000000000000001" ++
     "3100000000000000000000000000000000000000000000000000000000000000").toList
    (.tupV [.u64V 1, .strV [0x31]]) = true := by decide

example : decodesTo (.arrT .u8T 3)
    ("0000000000000000000000000000000000000000000000000000000000000001" ++
     "0000000000000000000000000000000000000000000000000000000000000001" ++
     "0000000000000000000000000000000000000000000000000000000000000001").toList
    (.tupV [.u8V 1, .u8V 1, .u8V 1]) = true := by decide

example : decodesTo (.arrT .u8T 3)
    ("0000000000000000000000000000000000000000000000000000000000000020" ++
     "0000000000000000000000000000000000000000000000000000000000000020" ++
     "0000000000000000000000000000000000000000000000000000000000000020").toList
    (.tupV [.u8V 32, .u8V 32, .u8V 32]) = true := by decide

example : decodesTo (.seqT .u64T)
    ("0000000000000000000000000000000000000000000000000000000000000020" ++
     "0000000000000000000000000000000000000000000000000000000000000003" ++
     "0000000000000000000000000000000000000000000000000000000000000001" ++
     "0000000000000000000000000000000000000000000000000000000000000002" ++
     "0000000000000000000000000000000000000000000000000000000000000003").toList
    (.seqV [.u64V 1, .u64V 2, .u64V 3]) = true := by decide

example : decodesTo .h160T
    "000000000000000000000000000000000000000000000000ffffffffffffffff".toList
    (.h160V [0, 0, 0, 0, 0, 0, 0, 0, 0, 0, 0, 0,
             255, 255, 255, 255, 255, 255, 255, 255]) = true := by decide

example : decodesTo .h256T
    "000000000000000000000000000000000000000000000000ffffffffffffffff".toList
    (.h256V (List.replicate 24 0 ++
             [255, 255, 255, 255, 255, 255, 255, 255])) = true := by decide

example : decodesTo .u256T
    "000000000000000000000000000000000000000000000000ffffffffffffffff".toList
    (.u256V [18446744073709551615, 0, 0, 0]) = true := by decide

/-! Validation of the encoder against the test vectors of `src/ser.rs`. -/

example : (to_string (.boolV true) ==
    ("0000000000000000000000000000000000000000000000000000000000000001".toList)) = true := by decide

example : (to_string (.u8V 0x80) ==
    ("0000000000000000000000000000000000000000000000000000000000000080".toList)) = true := by decide

example : (to_string (.i8V (-1)) ==
    ("ffffffffffffffffffffffffffffffffffffffffffffffffffffffffffffffff".toList)) = true := by decide

example : (to_string (.i8V (-128)) ==
    ("ffffffffffffffffffffffffffffffffffffffffffffffffffffffffffffff80".toList)) = true := by decide

example : (to_string (.i64V (-9223372036854775808)) ==
    ("ffffffffffffffffffffffffffffffffffffffffffffffff8000000000000000".toList)) = true := by decide

example : (to_string (.strV [0x68, 0x65, 0x6c, 0x6c, 0x6f]) ==
    (("0000000000000000000000000000000000000000000000000000000000000020" ++
     "0000000000000000000000000000000000000000000000000000000000000005" ++
     "68656c6c6f000000000000000000000000000000000000000000000000000000").toList)) = true := by decide

example : (to_string (.strV []) ==
    (("0000000000000000000000000000000000000000000000000000000000000020" ++
     "0000000000000000000000000000000000000000000000000000000000000000").toList)) = true := by decide

example : (to_string .noneV ==
    (("0000000000000000000000000000000000000000000000000000000000000020" ++
     "0000000000000000000000000000000000000000000000000000000000000000").toList)) = true := by decide

example : (to_string (.someV (.strV [0x68, 0x65, 0x6c, 0x6c, 0x6f])) ==
    (("0000000000000000000000000000000000000000000000000000000000000020" ++
     "0000000000000000000000000000000000000000000000000000000000000001" ++
     "0000000000000000000000000000000000000000000000000000000000000020" ++
     "0000000000000000000000000000000000000000000000000000000000000005" ++
     "68656c6c6f000000000000000000000000000000000000000000000000000000").toList)) = true := by decide

example : (to_string (.tupV [.u64V 1, .strV [0x31]]) ==
    (("0000000000000000000000000000000000000000000000000000000000000020" ++
     "0000000000000000000000000000000000000000000000000000000000000001" ++
     "0000000000000000000000000000000000000000000000000000000000000040" ++
     "0000000000000000000000000000000000000000000000000000000000000001" ++
     "3100000000000000000000000000000000000000000000000000000000000000").toList)) = true := by decide

example : (to_string (.tupV [.strV [0x31], .strV [0x32]]) ==
    (("0000000000000000000000000000000000000000000000000000000000000020" ++
     "0000000000000000000000000000000000000000000000000000000000000040" ++
     "0000000000000000000000000000000000000000000000000000000000000080" ++
     "0000000000000000000000000000000000000000000000000000000000000001" ++
     "3100000000000000000000000000000000000000000000000000000000000000" ++
     "0000000000000000000000000000000000000000000000000000000000000001" ++
     "3200000000000000000000000000000000000000000000000000000000000000").toList)) = true := by decide

example : (to_string (.seqV [.u64V 1, .u64V 2, .u64V 3]) ==
    (("0000000000000000000000000000000000000000000000000000000000000020" ++
     "0000000000000000000000000000000000000000000000000000000000000003" ++
     "0000000000000000000000000000000000000000000000000000000000000001" ++
     "0000000000000000000000000000000000000000000000000000000000000002" ++
     "0000000000000000000000000000000000000000000000000000000000000003").toList)) = true := by decide

example : (to_string (.tupV [.u8V 1, .u8V 1, .u8V 1]) ==
    (("0000000000000000000000000000000000000000000000000000000000000001" ++
     "0000000000000000000000000000000000000000000000000000000000000001" ++
     "0000000000000000000000000000000000000000000000000000000000000001").toList)) = true := by decide

example : (to_string (.seqV [.seqV [.strV [0x31], .strV [0x32]],
                            .seqV [.strV [0x33], .strV [0x34]]]) ==
    (("0000000000000000000000000000000000000000000000000000000000000020" ++
     "0000000000000000000000000000000000000000000000000000000000000002" ++
     "0000000000000000000000000000000000000000000000000000000000000040" ++
     "0000000000000000000000000000000000000000000000000000000000000120" ++
     "0000000000000000000000000000000000000000000000000000000000000002" ++
     "0000000000000000000000000000000000000000000000000000000000000040" ++
     "0000000000000000000000000000000000000000000000000000000000000080" ++
     "0000000000000000000000000000000000000000000000000000000000000001" ++
     "3100000000000000000000000000000000000000000000000000000000000000" ++
     "0000000000000000000000000000000000000000000000000000000000000001" ++
     "3200000000000000000000000000000000000000000000000000000000000000" ++
     "0000000000000000000000000000000000000000000000000000000000000002" ++
     "0000000000000000000000000000000000000000000000000000000000000040" ++
     "0000000000000000000000000000000000000000000000000000000000000080" ++
     "0000000000000000000000000000000000000000000000000000000000000001" ++
     "3300000000000000000000000000000000000000000000000000000000000000" ++
     "0000000000000000000000000000000000000000000000000000000000000001" ++
     "3400000000000000000000000000000000000000000000000000000000000000").toList)) = true := by decide

example : (to_string (.h160V [0, 0, 0, 0, 0, 0, 0, 0, 0, 0, 0, 0,
                             255, 255, 255, 255, 255, 255, 255, 255]) ==
    ("000000000000000000000000000000000000000000000000ffffffffffffffff".toList)) = true := by decide

example : (to_string (.h256V (List.replicate 24 0 ++
                             [255, 255, 255, 255, 255, 255, 255, 255])) ==
    ("000000000000000000000000000000000000000000000000ffffffffffffffff".toList)) = true := by decide

example : (to_string (.u256V [18446744073709551615, 0, 0, 0]) ==
    ("000000000000000000000000000000000000000000000000ffffffffffffffff".toList)) = true := by decide

example : (to_string (.u256V [1000, 0, 0, 0]) ==
    ("00000000000000000000000000000000000000000000000000000000000003e8".toList)) = true := by decide

example : (to_string (.tupV [.seqV [.seqV [.tupV [.strV
      [0x73, 0x74, 0x72, 0x69, 0x6e, 0x67],
      .tupV [.h256V (List.replicate 32 1),
             .tupV [.u32V 2, .u32V 2, .u32V 2, .u32V 2]]]]]]) ==
    (("0000000000000000000000000000000000000000000000000000000000000020" ++
     "0000000000000000000000000000000000000000000000000000000000000020" ++
     "0000000000000000000000000000000000000000000000000000000000000001" ++
     "0000000000000000000000000000000000000000000000000000000000000020" ++
     "0000000000000000000000000000000000000000000000000000000000000001" ++
     "0000000000000000000000000000000000000000000000000000000000000020" ++
     "00000000000000000000000000000000000000000000000000000000000000c0" ++
     "0101010101010101010101010101010101010101010101010101010101010101" ++
     "0000000000000000000000000000000000000000000000000000000000000002" ++
     "0000000000000000000000000000000000000000000000000000000000000002" ++
     "0000000000000000000000000000000000000000000000000000000000000002" ++
     "0000000000000000000000000000000000000000000000000000000000000002" ++
     "0000000000000000000000000000000000000000000000000000000000000006" ++
     "737472696e670000000000000000000000000000000000000000000000000000").toList)) = true := by decide

/-! ### Supporting lemmas: hex and word arithmetic -/

theorem hexVal_hexChr {n : Nat} (h : n < 16) : hexVal (hexChr n) = some n := by
  interval_cases n <;> decide

theorem hexChr_toNat_lt {n : Nat} (h : n < 16) :
    48 ≤ (hexChr n).toNat ∧ (hexChr n).toNat ≤ 102 := by
  interval_cases n <;> decide

theorem hexDecode_hexEncode {bs : List Nat} (h : ∀ b ∈ bs, b < 256) :
    hexDecode (hexEncode bs) = .ok bs := by
  induction bs with
  | nil => rfl
  | cons b bs ih =>
    have hb : b < 256 := h b (by simp)
    have h1 : b / 16 < 16 := by omega
    have h2 : b % 16 < 16 := by omega
    have hrest := ih (fun x hx => h x (by simp [hx]))
    simp only [hexEncode, hexDecode, hexVal_hexChr h1, hexVal_hexChr h2, hrest]
    have : b / 16 * 16 + b % 16 = b := by omega
    rw [this]

theorem hexEncode_length (bs : List Nat) : (hexEncode bs).length = 2 * bs.length := by
  induction bs with
  | nil => rfl
  | cons b bs ih => simp [hexEncode, ih]; omega

theorem hexEncode_append (a b : List Nat) :
    hexEncode (a ++ b) = hexEncode a ++ hexEncode b := by
  induction a with
  | nil => rfl
  | cons x xs ih => simp [hexEncode, ih]

theorem pad_u64_length (v : Nat) : (pad_u64 v).length = 32 := by
  simp [pad_u64]

theorem pad_u64_lt (v : Nat) : ∀ b ∈ pad_u64 v, b < 256 := by
  intro b hb
  simp only [pad_u64, List.mem_append, List.mem_cons, List.mem_replicate,
    List.not_mem_nil, or_false] at hb
  rcases hb with ⟨-, h⟩ | h | h | h | h | h | h | h | h <;> omega

theorem encode_u64_length (v : Nat) : (encode_u64 v).length = 64 := by
  simp [encode_u64, hexEncode_length, pad_u64_length]

theorem wordToNat_append (a b : List Nat) :
    wordToNat (a ++ b) = wordToNat a * 256 ^ b.length + wordToNat b := by
  induction b using List.reverseRecOn with
  | nil => simp [wordToNat]
  | append_singleton xs x ih =>
    simp only [wordToNat, ← List.append_assoc, List.foldl_append, List.foldl_cons,
      List.foldl_nil] at *
    rw [ih, List.length_append]
    simp only [List.length_singleton]
    ring

theorem wordToNat_replicate_zero (k : Nat) : wordToNat (List.replicate k 0) = 0 := by
  induction k with
  | zero => rfl
  | succ k ih => simpa [List.replicate_succ, wordToNat] using ih

theorem wordToNat_pad_u64 {v : Nat} (h : v < 2 ^ 64) : wordToNat (pad_u64 v) = v := by
  rw [pad_u64, wordToNat_append, wordToNat_replicate_zero]
  simp only [wordToNat, List.foldl_cons, List.foldl_nil]
  omega

theorem wordToNat_lt (bs : List Nat) (h : ∀ b ∈ bs, b < 256) :
    wordToNat bs < 256 ^ bs.length := by
  induction bs using List.reverseRecOn with
  | nil => simp [wordToNat]
  | append_singleton xs x ih =>
    rw [wordToNat_append]
    have hx : x < 256 := h x (by simp)
    have hxs := ih (fun b hb => h b (by simp [hb]))
    simp only [wordToNat, List.foldl_cons, List.foldl_nil, List.length_append,
      List.length_singleton]
    calc List.foldl (fun a b => a * 256 + b) 0 xs * 256 ^ 1 + (0 * 256 + x)
        < (List.foldl (fun a b => a * 256 + b) 0 xs + 1) * 256 := by omega
      _ ≤ 256 ^ xs.length * 256 := by
          have : List.foldl (fun a b => a * 256 + b) 0 xs + 1 ≤ 256 ^ xs.length := hxs
          exact Nat.mul_le_mul_right 256 this
      _ = 256 ^ (xs.length + 1) := by rw [Nat.pow_succ]

theorem pad_i64_neg_eq {v : Int} (h0 : -(2 ^ 63) ≤ v) (h1 : v < 0) :
    wordToNat (pad_i64 v) = 2 ^ 256 - (-v).toNat := by
  have hv : ¬ 0 ≤ v := by omega
  rw [pad_i64, if_neg hv]
  have hn : ((v + 2 ^ 64).toNat : Int) = v + 2 ^ 64 := by
    have : (0 : Int) ≤ v + 2 ^ 64 := by omega
    omega
  set n := (v + 2 ^ 64).toNat with hndef
  have hnlow : 2 ^ 63 ≤ n ∧ n < 2 ^ 64 := by omega
  rw [wordToNat_append]
  have hrep : wordToNat (List.replicate 24 255) = 256 ^ 24 - 1 := by decide
  rw [hrep]
  simp only [wordToNat, List.foldl_cons, List.foldl_nil, List.length_cons,
    List.length_nil]
  have hvn : (-v).toNat = 2 ^ 64 - n := by omega
  rw [hvn]
  have hexp : (256 : Nat) ^ 24 = 2 ^ 192 := by norm_num
  omega

/-! ### Supporting lemmas: `U256::bits` and the verifiers -/

theorem bitsCore_le_iff {f n k : Nat} (hf : n < 2 ^ f) :
    bitsCore f n ≤ k ↔ n < 2 ^ k := by
  induction f generalizing n k with
  | zero =>
    simp only [Nat.pow_zero, Nat.lt_one_iff] at hf
    subst hf
    simp [bitsCore, Nat.two_pow_pos]
  | succ f ih =>
    by_cases h0 : n = 0
    · subst h0
      simp [bitsCore, Nat.two_pow_pos]
    · have hdiv : n / 2 < 2 ^ f := by
        rw [Nat.div_lt_iff_lt_mul (by norm_num : 0 < 2)]
        rw [Nat.pow_succ] at hf
        omega
      cases k with
      | zero =>
        simp only [bitsCore, if_neg h0, Nat.pow_zero]
        omega
      | succ k =>
        simp only [bitsCore, if_neg h0, Nat.add_le_add_iff_right]
        rw [ih hdiv]
        rw [Nat.pow_succ]
        rw [Nat.div_lt_iff_lt_mul (by norm_num : 0 < 2)]

theorem u256Bits_le_iff {n k : Nat} (hn : n < 2 ^ 256) :
    u256Bits n ≤ k ↔ n < 2 ^ k := by
  have : n < 2 ^ 257 := lt_of_lt_of_le hn (Nat.pow_le_pow_right (by norm_num) (by norm_num))
  exact bitsCore_le_iff this

theorem u256LeadingZeros_pos_iff {n : Nat} (hn : n < 2 ^ 256) :
    0 < u256LeadingZeros n ↔ n < 2 ^ 255 := by
  unfold u256LeadingZeros
  have h1 := u256Bits_le_iff (k := 255) hn
  have h2 := u256Bits_le_iff (k := 256) hn
  constructor
  · intro h
    rw [← h1]
    omega
  · intro h
    have := h1.mpr h
    omega

theorem verify_uint_ok {u size : Nat} (hu : u < 2 ^ 256) (hsize : size ≤ 64)
    (h : u < 2 ^ size) : verify_uint u size = .ok u := by
  have hb : u256Bits u ≤ size := (u256Bits_le_iff hu).mpr h
  have hlow : u % 2 ^ 64 = u := by
    apply Nat.mod_eq_of_lt
    exact lt_of_lt_of_le h (Nat.pow_le_pow_right (by norm_num) hsize)
  simp only [verify_uint, u256LowU64, hlow]
  rw [if_neg (by omega)]

theorem verify_uint_err {u size : Nat} (hu : u < 2 ^ 256) (h : 2 ^ size ≤ u) :
    verify_uint u size =
      .error (.parsing "decoded integer does not fit in integer of specified size") := by
  have hb : ¬ u256Bits u ≤ size := by
    rw [u256Bits_le_iff hu]
    omega
  simp only [verify_uint]
  rw [if_pos (by omega)]

/-- The value a 32-byte word denotes as a two's-complement 256-bit
signed integer (the reading the specification ascribes to
`decode_int`). -/
def twosComp256 (x : Nat) : Int :=
  if x < 2 ^ 255 then (x : Int) else (x : Int) - 2 ^ 256

theorem verify_int_nonneg {x size : Nat} (hx : x < 2 ^ 255) (hs8 : 8 ≤ size)
    (hs64 : size ≤ 64) :
    verify_int x size =
      (if x < 2 ^ (size - 1) then .ok (x : Int)
       else .error (.parsing "decoded integer does not fit in integer of specified size")) := by
  have hx256 : x < 2 ^ 256 :=
    lt_of_lt_of_le hx (Nat.pow_le_pow_right (by norm_num) (by norm_num))
  have hlz : 0 < u256LeadingZeros x := (u256LeadingZeros_pos_iff hx256).mpr hx
  by_cases hfit : x < 2 ^ (size - 1)
  · have hb : u256Bits x ≤ size - 1 := (u256Bits_le_iff hx256).mpr hfit
    have hlow : x % 2 ^ 64 = x := by
      apply Nat.mod_eq_of_lt
      exact lt_of_lt_of_le hfit (Nat.pow_le_pow_right (by norm_num) (by omega))
    have hsmall : x < 2 ^ 63 := by
      have : (2 : Nat) ^ (size - 1) ≤ 2 ^ 63 := Nat.pow_le_pow_right (by norm_num) (by omega)
      omega
    simp only [verify_int, if_pos hlz, u64AsI64, u256LowU64, hlow, if_pos hfit]
    rw [if_neg (by omega), if_pos (by omega)]
  · have hb : ¬ u256Bits x ≤ size - 1 := by
      rw [u256Bits_le_iff hx256]
      omega
    simp only [verify_int, if_pos hlz, if_neg hfit]
    rw [if_pos (by omega)]

theorem verify_int_neg {x size : Nat} (hx : 2 ^ 255 ≤ x) (hx2 : x < 2 ^ 256)
    (hs8 : 8 ≤ size) (hs64 : size ≤ 64) :
    verify_int x size =
      (if 2 ^ size ≤ 2 ^ 256 - x then
        .error (.parsing "decoded integer does not fit in integer of specified size")
       else
        .ok (if u64AsI64 ((2 ^ 256 - x) % 2 ^ 64) < 0 then u64AsI64 ((2 ^ 256 - x) % 2 ^ 64)
             else -u64AsI64 ((2 ^ 256 - x) % 2 ^ 64))) := by
  have hlz : ¬ 0 < u256LeadingZeros x := by
    rw [u256LeadingZeros_pos_iff hx2]
    omega
  have hx0 : ¬ x = 0 := by
    intro h
    rw [h] at hx
    norm_num at hx
  have hn : 2 ^ 256 - x < 2 ^ 256 := Nat.sub_lt (by norm_num) (by omega)
  have hmod : (2 ^ 256 - 1 - x + 1) % 2 ^ 256 = 2 ^ 256 - x := by omega
  have hcar : ¬ 2 ^ 256 ≤ 2 ^ 256 - 1 - x + 1 := by omega
  simp only [verify_int, u256OverflowingNeg, u256OverflowingAdd, u256LowU64,
    if_neg hlz, if_neg hx0, hmod, decide_eq_true_eq]
  rw [if_neg (by simp)]
  by_cases hbig : 2 ^ size ≤ 2 ^ 256 - x
  · have hb : ¬ u256Bits (2 ^ 256 - x) ≤ size := by
      rw [u256Bits_le_iff hn]
      omega
    rw [if_pos (Or.inr (show u256Bits (2 ^ 256 - x) > size by omega)), if_pos hbig]
  · have hb : u256Bits (2 ^ 256 - x) ≤ size := by
      rw [u256Bits_le_iff hn]
      omega
    rw [if_neg (by push_neg; exact ⟨by omega, by omega⟩), if_neg hbig]

theorem u64AsI64_small {n : Nat} (h : n < 2 ^ 63) : u64AsI64 (n % 2 ^ 64) = (n : Int) := by
  have hlow : n % 2 ^ 64 = n := Nat.mod_eq_of_lt (by omega)
  simp only [u64AsI64, hlow, if_pos h]

theorem u64AsI64_min : u64AsI64 (2 ^ 63 % 2 ^ 64) = -(2 ^ 63 : Int) := by
  decide

theorem decode_int_hex {bs : List Nat} {size : Nat} (hlen : bs.length = 32)
    (hb : ∀ b ∈ bs, b < 256) (hs8 : 8 ≤ size) (hs64 : size ≤ 64) :
    decode_int (hexEncode bs) size = verify_int (wordToNat bs) size := by
  simp only [decode_int]
  rw [if_neg (by omega), hexDecode_hexEncode hb]
  simp only [ethAbiDecodeWord, hlen]
  rw [if_neg (by omega)]
  rw [List.take_of_length_le (by omega)]

theorem decode_uint_hex {bs : List Nat} {size : Nat} (hlen : bs.length = 32)
    (hb : ∀ b ∈ bs, b < 256) (hs8 : 8 ≤ size) (hs64 : size ≤ 64) :
    decode_uint (hexEncode bs) size = verify_uint (wordToNat bs) size := by
  simp only [decode_uint]
  rw [if_neg (by omega), hexDecode_hexEncode hb]
  simp only [ethAbiDecodeWord, hlen]
  rw [if_neg (by omega)]
  rw [List.take_of_length_le (by omega)]

theorem decode_uint_encode_u64 {v size : Nat} (hv : v < 2 ^ size) (hs8 : 8 ≤ size)
    (hs64 : size ≤ 64) : decode_uint (encode_u64 v) size = .ok v := by
  rw [encode_u64, decode_uint_hex (pad_u64_length v) (pad_u64_lt v) hs8 hs64]
  have hv64 : v < 2 ^ 64 := lt_of_lt_of_le hv (Nat.pow_le_pow_right (by norm_num) hs64)
  rw [wordToNat_pad_u64 hv64]
  exact verify_uint_ok (lt_of_lt_of_le hv64 (by norm_num)) hs64 hv

theorem pad_i64_length (v : Int) : (pad_i64 v).length = 32 := by
  by_cases h : 0 ≤ v
  · simp [pad_i64, h, pad_u64_length]
  · simp [pad_i64, h]

theorem pad_i64_lt (v : Int) : ∀ b ∈ pad_i64 v, b < 256 := by
  by_cases h : 0 ≤ v
  · simp only [pad_i64, if_pos h]
    exact pad_u64_lt _
  · intro b hb
    simp only [pad_i64, if_neg h, List.mem_append, List.mem_cons, List.mem_replicate,
      List.not_mem_nil, or_false] at hb
    rcases hb with ⟨-, h⟩ | h | h | h | h | h | h | h | h <;> omega

theorem decode_int_encode_i64 {v : Int} {size : Nat} (hlo : -(2 ^ (size - 1)) ≤ v)
    (hhi : v < 2 ^ (size - 1)) (hs8 : 8 ≤ size) (hs64 : size ≤ 64) :
    decode_int (encode_i64 v) size = .ok v := by
  rw [encode_i64, decode_int_hex (pad_i64_length v) (pad_i64_lt v) hs8 hs64]
  have hcast1 : ((2 ^ (size - 1) : Nat) : Int) = 2 ^ (size - 1) := by push_cast; ring
  have hszn : (2 : Nat) ^ (size - 1) ≤ 2 ^ 63 := Nat.pow_le_pow_right (by norm_num) (by omega)
  by_cases h0 : 0 ≤ v
  · have hpad : pad_i64 v = pad_u64 v.toNat := by simp [pad_i64, h0]
    rw [hpad]
    have hv1 : v.toNat < 2 ^ (size - 1) := by omega
    have hv64 : v.toNat < 2 ^ 64 := by omega
    rw [wordToNat_pad_u64 hv64]
    have hx255 : v.toNat < 2 ^ 255 := by omega
    rw [verify_int_nonneg hx255 hs8 hs64, if_pos hv1]
    congr 1
    omega
  · have hneg : v < 0 := by omega
    have hbound : -(2 ^ 63) ≤ v := by omega
    rw [pad_i64_neg_eq hbound hneg]
    set m := (-v).toNat with hm
    have hm1 : 1 ≤ m := by omega
    have hmsz : m ≤ 2 ^ (size - 1) := by omega
    have hm63 : m ≤ 2 ^ 63 := by omega
    have hx : 2 ^ 255 ≤ 2 ^ 256 - m := by omega
    have hx2 : 2 ^ 256 - m < 2 ^ 256 := by omega
    have hsub : 2 ^ 256 - (2 ^ 256 - m) = m := by omega
    rw [verify_int_neg hx hx2 hs8 hs64, hsub]
    have hnot : ¬ 2 ^ size ≤ m := by
      have h1 : (2 : Nat) ^ (size - 1) < 2 ^ size := by
        apply Nat.pow_lt_pow_right (by norm_num)
        omega
      omega
    rw [if_neg hnot]
    by_cases hsmall : m < 2 ^ 63
    · rw [u64AsI64_small hsmall]
      have hpos : ¬ ((m : Int) < 0) := by omega
      rw [if_neg hpos]
      congr 1
      omega
    · have hm2 : m = 2 ^ 63 := by omega
      rw [hm2, u64AsI64_min, if_pos (by norm_num)]
      congr 1
      omega

/-- C2: `decode_int(word, bits)` with `8 ≤ bits ≤ 64` interprets the
32-byte word as a two's-complement 256-bit signed integer.  The claim
says it fails exactly when the represented value does not fit in
`bits` bits and in particular rejects every negative `v` with
`v < -2^(bits-1)`.  This counterexample shows the word representing
`-200` is accepted by `decode_int(·, 8)` and yields `-200`, although
`-200 < -2^7`. -/
theorem c2_decode_int_counterexample :
    intResEq (decode_int (hexEncode (List.replicate 31 255 ++ [56])) 8) (-200) = true ∧
    twosComp256 (wordToNat (List.replicate 31 255 ++ [56])) = -200 ∧
    (-200 : Int) < -(2 ^ (8 - 1)) := by
  refine ⟨by decide, by decide, by norm_num⟩

/-- C2 (amended): `decode_int(word, bits)` with `8 ≤ bits ≤ 64` reads
the 32-byte word as a two's-complement 256-bit signed integer; it fails
exactly when the represented value `v` is nonnegative with
`v ≥ 2^(bits-1)`, or negative with magnitude `-v ≥ 2^bits` (not
`2^(bits-1)`); whenever `v` fits in a signed integer of the declared
width, `v` itself is returned. -/
theorem c2_decode_int_range (x size : Nat) (hx : x < 2 ^ 256) (h8 : 8 ≤ size)
    (h64 : size ≤ 64) :
    (verify_int x size =
        .error (.parsing "decoded integer does not fit in integer of specified size") ↔
      ((x < 2 ^ 255 ∧ 2 ^ (size - 1) ≤ x) ∨ (2 ^ 255 ≤ x ∧ 2 ^ size ≤ 2 ^ 256 - x))) ∧
    (-((2 : Int) ^ (size - 1)) ≤ twosComp256 x → twosComp256 x < 2 ^ (size - 1) →
      verify_int x size = .ok (twosComp256 x)) ∧
    (∀ bs : List Nat, bs.length = 32 → (∀ b ∈ bs, b < 256) →
      decode_int (hexEncode bs) size = verify_int (wordToNat bs) size) := by
  refine ⟨?_, ?_, fun bs hl hb => decode_int_hex hl hb h8 h64⟩
  · by_cases hx255 : x < 2 ^ 255
    · rw [verify_int_nonneg hx255 h8 h64]
      by_cases hfit : x < 2 ^ (size - 1)
      · rw [if_pos hfit]
        constructor
        · intro h
          exact absurd h (by simp)
        · intro h
          rcases h with ⟨-, h⟩ | ⟨h, -⟩ <;> omega
      · rw [if_neg hfit]
        constructor
        · intro _
          exact Or.inl ⟨hx255, by omega⟩
        · intro _
          rfl
    · rw [verify_int_neg (by omega) hx h8 h64]
      by_cases hbig : 2 ^ size ≤ 2 ^ 256 - x
      · rw [if_pos hbig]
        constructor
        · intro _
          exact Or.inr ⟨by omega, hbig⟩
        · intro _
          rfl
      · rw [if_neg hbig]
        constructor
        · intro h
          exact absurd h (by simp)
        · intro h
          rcases h with ⟨h, -⟩ | ⟨-, h⟩ <;> omega
  · intro hlo hhi
    by_cases hx255 : x < 2 ^ 255
    · have htc : twosComp256 x = (x : Int) := by
        unfold twosComp256
        rw [if_pos hx255]
      rw [htc] at hlo hhi
      have hfit : x < 2 ^ (size - 1) := by exact_mod_cast hhi
      rw [verify_int_nonneg hx255 h8 h64, if_pos hfit, htc]
    · have htc : twosComp256 x = (x : Int) - 2 ^ 256 := by
        unfold twosComp256
        rw [if_neg hx255]
      rw [verify_int_neg (by omega) hx h8 h64]
      set m := 2 ^ 256 - x with hmdef
      have hxm : (x : Int) - 2 ^ 256 = -(m : Int) := by
        have : m = 2 ^ 256 - x := hmdef
        omega
      have hm0 : 1 ≤ m := by omega
      have hm : m ≤ 2 ^ (size - 1) := by
        rw [htc, hxm] at hlo
        have h2 : ((2 : Int) ^ (size - 1)) = ((2 ^ (size - 1) : Nat) : Int) := by
          push_cast
          ring
        omega
      have hnot : ¬ 2 ^ size ≤ m := by
        have h1 : (2 : Nat) ^ (size - 1) < 2 ^ size := by
          apply Nat.pow_lt_pow_right (by norm_num)
          omega
        omega
      rw [if_neg hnot, htc, hxm]
      have hm63 : m ≤ 2 ^ 63 := by
        have : (2 : Nat) ^ (size - 1) ≤ 2 ^ 63 := Nat.pow_le_pow_right (by norm_num) (by omega)
        omega
      by_cases hsmall : m < 2 ^ 63
      · rw [u64AsI64_small hsmall, if_neg (by omega)]
      · have hm2 : m = 2 ^ 63 := by omega
        rw [hm2, u64AsI64_min, if_pos (by norm_num)]
        norm_num

/-- Witness for `c2_decode_int_range`: at `x = 2^255` (the most
negative 256-bit value) and `bits = 8`, the decoder rejects the word. -/
theorem c2_decode_int_range_witness :
    verify_int (2 ^ 255) 8 =
      .error (.parsing "decoded integer does not fit in integer of specified size") := by
  have h := (c2_decode_int_range (2 ^ 255) 8 (by norm_num) (by norm_num) (by norm_num)).1
  exact h.mpr (Or.inr ⟨le_refl _, by norm_num⟩)

theorem mustRead_ok {n : Nat} {r : RState} {bs : List Char} {r' : RState}
    (hn : 0 < n) (h : mustRead n r = (.ok bs, r')) :
    r.pos + n ≤ r.data.length ∧ bs = (r.data.drop r.pos).take n ∧
      r' = { r with pos := r.pos + n } := by
  unfold mustRead at h
  rw [if_neg (by omega)] at h
  by_cases hle : r.pos + n ≤ r.data.length
  · rw [if_pos hle] at h
    injection h with h1 h2
    injection h1 with h1
    exact ⟨hle, h1.symm, h2.symm⟩
  · rw [if_neg hle] at h
    injection h with h1 h2
    exact Except.noConfusion h1

theorem mustRead_insufficient {n : Nat} {r : RState}
    (hn : 0 < n) (hgt : r.data.length < r.pos + n) :
    mustRead n r = (.error (.message "insufficient bytes read from reader"),
      { r with pos := max r.pos r.data.length }) := by
  unfold mustRead
  rw [if_neg (by omega), if_neg (by omega)]

theorem tupleBase_fields (s : DState) :
    (tupleBase s).2.tupleCounter = s.tupleCounter ∧ (tupleBase s).2.custom = s.custom ∧
      (tupleBase s).2.hints = s.hints ∧ (tupleBase s).2.reader = s.reader := by
  obtain ⟨tc, cu, rd, hs, scs⟩ := s
  cases scs <;> simp [tupleBase]

theorem peekUint_ok_frame {size : Nat} {s : DState} {v : Nat} {s' : DState}
    (h : peekUint size s = (.ok v, s')) :
    s' = s ∧ decode_uint ((s.reader.data.drop s.reader.pos).take 64) size = .ok v ∧
      s.reader.pos + 64 ≤ s.reader.data.length := by
  unfold peekUint at h
  rcases hm : mustRead 64 s.reader with ⟨res, r⟩
  rw [hm] at h
  cases res with
  | error e =>
    have h' : ((.error e : Except Err Nat), { s with reader := r }) = (.ok v, s') := h
    injection h' with h1 h2
    exact Except.noConfusion h1
  | ok bytes =>
    obtain ⟨hle, hbs, hr⟩ := mustRead_ok (by norm_num) hm
    have h' : (decode_uint bytes size, { s with reader := seekBack 64 r }) =
        ((.ok v : Except Err Nat), s') := h
    injection h' with h1 h2
    subst hbs
    refine ⟨?_, h1, hle⟩
    rw [← h2, hr]
    show ({ s with reader := { s.reader with pos := s.reader.pos + 64 - 64 } } : DState) = s
    rw [Nat.add_sub_cancel]

/-- C10: `peek_uint` is position-preserving: whenever it succeeds it has
read the next 64 hex characters from the current position, decoded them
as an unsigned integer and seeked 64 bytes back, so the decoder state
after the call equals the state before it (reader position included),
and the value is the decode of the 64-character window at the original
position. -/
theorem c10_peek_uint_position (size : Nat) (s : DState) (v : Nat) (s' : DState)
    (h : peekUint size s = (.ok v, s')) :
    s' = s ∧ decode_uint ((s.reader.data.drop s.reader.pos).take 64) size = .ok v ∧
      s.reader.pos + 64 ≤ s.reader.data.length :=
  peekUint_ok_frame h

/-- Witness for `c10_peek_uint_position`: a reader holding one word of
zeros, peeked at position 0. -/
theorem c10_peek_uint_position_witness :
    (⟨0, none, ⟨List.replicate 64 '0', 0⟩, [], []⟩ : DState) =
        ⟨0, none, ⟨List.replicate 64 '0', 0⟩, [], []⟩ ∧
      decode_uint ((((⟨0, none, ⟨List.replicate 64 '0', 0⟩, [], []⟩ : DState)).reader.data.drop
          ((⟨0, none, ⟨List.replicate 64 '0', 0⟩, [], []⟩ : DState)).reader.pos).take 64) 64 =
        .ok 0 ∧
      ((⟨0, none, ⟨List.replicate 64 '0', 0⟩, [], []⟩ : DState)).reader.pos + 64 ≤
        ((⟨0, none, ⟨List.replicate 64 '0', 0⟩, [], []⟩ : DState)).reader.data.length :=
  c10_peek_uint_position 64 ⟨0, none, ⟨List.replicate 64 '0', 0⟩, [], []⟩ 0
    ⟨0, none, ⟨List.replicate 64 '0', 0⟩, [], []⟩ (by decide)

/-- C4: `deserialize_tuple` on a tuple with no pending fixed big-integer
wrapper: when the hint map holds an entry for the tuple's identifier the
hinted interpretation is used (Static ⇒ `read_static_size_tuple`,
Dynamic ⇒ `read_dynamic_size_tuple`); with no hint the decoder peeks the
next 32-byte word without consuming it and dispatches to the dynamic
decode exactly when the peeked unsigned integer is divisible by 32, and
to the static decode otherwise. -/
theorem c4_tuple_dispatch (decs : List Dec) (s0 : DState) (base : Nat) (s : DState)
    (hc : s0.custom = none)
    (hb : tupleBase { s0 with tupleCounter := s0.tupleCounter + 1 } = (base, s)) :
    (lookupHint s.hints s.tupleCounter = some .staticB →
      deserializeTuple decs s0 = readStaticSizeTuple base decs s) ∧
    (lookupHint s.hints s.tupleCounter = some .dynamicB →
      deserializeTuple decs s0 = readDynamicSizeTuple base decs s) ∧
    (∀ v s', lookupHint s.hints s.tupleCounter = none → peekUint 64 s = (.ok v, s') →
      s' = s ∧
      deserializeTuple decs s0 =
        if v % 32 = 0 then readDynamicSizeTuple base decs s
        else readStaticSizeTuple base decs s) := by
  have hcs : s.custom = none := by
    have hb2 : (tupleBase { s0 with tupleCounter := s0.tupleCounter + 1 }).2 = s :=
      congrArg Prod.snd hb
    rw [← hb2, (tupleBase_fields _).2.1]
    exact hc
  refine ⟨?_, ?_, ?_⟩
  · intro hl
    unfold deserializeTuple
    rw [hb]
    dsimp only
    rw [hcs, hl]
  · intro hl
    unfold deserializeTuple
    rw [hb]
    dsimp only
    rw [hcs, hl]
  · intro v s' hl hpk
    obtain ⟨hs', -, -⟩ := peekUint_ok_frame hpk
    subst hs'
    refine ⟨rfl, ?_⟩
    unfold deserializeTuple
    rw [hb]
    dsimp only
    rw [hcs, hl, hpk]

/-- Witness for `c4_tuple_dispatch`: the empty tuple decoded from an
empty, hintless decoder state. -/
theorem c4_tuple_dispatch_witness :
    (lookupHint ([] : List (Nat × BaseType)) 1 = some .staticB →
      deserializeTuple [] ⟨0, none, ⟨[], 0⟩, [], []⟩ =
        readStaticSizeTuple 0 [] ⟨1, none, ⟨[], 0⟩, [], []⟩) ∧
    (lookupHint ([] : List (Nat × BaseType)) 1 = some .dynamicB →
      deserializeTuple [] ⟨0, none, ⟨[], 0⟩, [], []⟩ =
        readDynamicSizeTuple 0 [] ⟨1, none, ⟨[], 0⟩, [], []⟩) ∧
    (∀ v s', lookupHint ([] : List (Nat × BaseType)) 1 = none →
      peekUint 64 ⟨1, none, ⟨[], 0⟩, [], []⟩ = (.ok v, s') →
      s' = ⟨1, none, ⟨[], 0⟩, [], []⟩ ∧
      deserializeTuple [] ⟨0, none, ⟨[], 0⟩, [], []⟩ =
        if v % 32 = 0 then readDynamicSizeTuple 0 [] ⟨1, none, ⟨[], 0⟩, [], []⟩
        else readStaticSizeTuple 0 [] ⟨1, none, ⟨[], 0⟩, [], []⟩) :=
  c4_tuple_dispatch [] ⟨0, none, ⟨[], 0⟩, [], []⟩ 0 ⟨1, none, ⟨[], 0⟩, [], []⟩ rfl (by decide)

/-- C6: after a successful decode, `from_reader` attempts to read one
additional byte via `Deserializer::end`: a byte still available makes
the whole decode fail with the syntax error "input has not been
processed completely", while a read that fails because the reader is
exhausted (a data-classified error) lets the decode succeed with the
value. -/
theorem c6_end_trailing (r : RState) :
    (r.pos < r.data.length →
      endFn r = .error (.parsing "input has not been processed completely")) ∧
    (r.data.length ≤ r.pos → endFn r = .ok ()) ∧
    (∀ ty fuel hints rdr v s',
      decodeTy ty ⟨0, none, rdr, hints, []⟩ = (.ok v, s') →
      fromReaderAux ty (fuel + 1) hints rdr =
        match endFn s'.reader with
        | .ok _ => .ok v
        | .error e => .error e) := by
  refine ⟨?_, ?_, ?_⟩
  · intro h
    unfold endFn mustRead
    rw [if_neg (by omega : ¬(1 = 0)), if_pos (by omega : r.pos + 1 ≤ r.data.length)]
  · intro h
    unfold endFn mustRead
    rw [if_neg (by omega : ¬(1 = 0)), if_neg (by omega : ¬(r.pos + 1 ≤ r.data.length))]
    rfl
  · intro ty fuel hints rdr v s' h
    unfold fromReaderAux
    rw [h]

theorem mustRead_mk (n : Nat) (data : List Char) (pos : Nat)
    (hn : 0 < n) (hle : pos + n ≤ data.length) :
    mustRead n ⟨data, pos⟩ = (.ok ((data.drop pos).take n), ⟨data, pos + n⟩) := by
  unfold mustRead
  rw [if_neg (by omega), if_pos hle]

theorem mustRead_insufficient_mk (n : Nat) (data : List Char) (pos : Nat)
    (hn : 0 < n) (hgt : data.length < pos + n) :
    mustRead n ⟨data, pos⟩ = (.error (.message "insufficient bytes read from reader"),
      ⟨data, max pos data.length⟩) := by
  unfold mustRead
  rw [if_neg (by omega), if_neg (by dsimp only; omega)]

theorem fromReaderAux_err_none (ty : Ty) (fuel : Nat) (hints : List (Nat × BaseType))
    (rdr : RState) (err : Err) (s' : DState)
    (h : decodeTy ty ⟨0, none, rdr, hints, []⟩ = (.error err, s'))
    (hh : err.tupleHint = none) :
    fromReaderAux ty (fuel + 1) hints rdr = .error err := by
  unfold fromReaderAux
  rw [h]
  dsimp only
  rw [hh]

theorem fromReaderAux_err_dup (ty : Ty) (fuel : Nat) (hints : List (Nat × BaseType))
    (rdr : RState) (err : Err) (s' : DState) (hint : TupleHint)
    (h : decodeTy ty ⟨0, none, rdr, hints, []⟩ = (.error err, s'))
    (hh : err.tupleHint = some hint)
    (hc : containsHint hints hint.index = true) :
    fromReaderAux ty (fuel + 1) hints rdr = .error err := by
  unfold fromReaderAux
  rw [h]
  dsimp only
  rw [hh]
  dsimp only
  rw [if_pos hc]

theorem fromReaderAux_err_retry (ty : Ty) (fuel : Nat) (hints : List (Nat × BaseType))
    (rdr : RState) (err : Err) (s' : DState) (hint : TupleHint)
    (h : decodeTy ty ⟨0, none, rdr, hints, []⟩ = (.error err, s'))
    (hh : err.tupleHint = some hint)
    (hc : containsHint hints hint.index = false) :
    fromReaderAux ty (fuel + 1) hints rdr =
      fromReaderAux ty fuel
        (insertHint hints hint.index (if hint.isDynamic then .dynamicB else .staticB))
        (seekStart 0 s'.reader) := by
  unfold fromReaderAux
  rw [h]
  dsimp only
  rw [hh]
  dsimp only
  rw [if_neg (by simp [hc]), fromReaderAux.eq_def]

/-- C5: a `Data`-classified failure with description "insufficient bytes
read from reader", raised while the current scope has recorded no
dynamic children, is converted by `get_error` into a tuple-hint error
`{tuple_id, is_dynamic: false}`, and every other error is left
unchanged; the dynamic-tuple element loop routes element errors through
`get_error`; the `from_reader` loop consumes tuple-hint errors: an
identifier not yet in the hint map makes it insert the hint, seek the
reader back to offset zero and restart, while a duplicate identifier
(and any error carrying no hint) is surfaced to the caller. -/
theorem c5_hint_error_protocol :
    (∀ (s : DState) (e : Err) sc rest, s.scopes = sc :: rest →
      sc.hasDynamicTypes = false → e.classify = .data →
      e.description = "insufficient bytes read from reader" →
      getError s e = .tupleHintE ⟨s.tupleCounter, false⟩ e) ∧
    (∀ (s : DState) (e : Err), s.scopes = [] → e.classify = .data →
      e.description = "insufficient bytes read from reader" →
      getError s e = .tupleHintE ⟨s.tupleCounter, false⟩ e) ∧
    (∀ (s : DState) (e : Err), e.classify ≠ .data → getError s e = e) ∧
    (∀ (s : DState) (e : Err), e.description ≠ "insufficient bytes read from reader" →
      getError s e = e) ∧
    (∀ (s : DState) (e : Err) sc rest, s.scopes = sc :: rest →
      sc.hasDynamicTypes = true → getError s e = e) ∧
    (∀ (d : Dec) rest count len acc (s : DState) (e : Err) (s2 : DState),
      d s = (.error e, s2) →
      dynamicTupleLoop (d :: rest) count len acc s = (.error (getError s2 e), s2)) ∧
    (∀ ty fuel hints rdr (err : Err) (s' : DState),
      decodeTy ty ⟨0, none, rdr, hints, []⟩ = (.error err, s') →
      (err.tupleHint = none → fromReaderAux ty (fuel + 1) hints rdr = .error err) ∧
      (∀ hint, err.tupleHint = some hint → containsHint hints hint.index = true →
        fromReaderAux ty (fuel + 1) hints rdr = .error err) ∧
      (∀ hint, err.tupleHint = some hint → containsHint hints hint.index = false →
        fromReaderAux ty (fuel + 1) hints rdr =
          fromReaderAux ty fuel
            (insertHint hints hint.index (if hint.isDynamic then .dynamicB else .staticB))
            (seekStart 0 s'.reader))) := by
  refine ⟨?_, ?_, ?_, ?_, ?_, ?_, ?_⟩
  · intro s e sc rest hsc hdyn hcl hdesc
    unfold getError
    rw [hcl]
    dsimp only
    rw [hsc]
    dsimp only
    rw [if_pos ⟨hdesc, hdyn⟩]
  · intro s e hsc hcl hdesc
    unfold getError
    rw [hcl]
    dsimp only
    rw [hsc]
    dsimp only
    rw [if_pos ⟨hdesc, rfl⟩]
  · intro s e h
    unfold getError
    cases hcl : e.classify
    case data => exact absurd hcl h
    all_goals rfl
  · intro s e h
    unfold getError
    cases hcl : e.classify <;> try rfl
    dsimp only
    split
    · rename_i hcon
      exact absurd hcon.1 h
    · rfl
  · intro s e sc rest hsc hdyn
    unfold getError
    cases hcl : e.classify <;> try rfl
    dsimp only
    rw [hsc]
    dsimp only
    split
    · rename_i hcon
      rw [hdyn] at hcon
      exact Bool.noConfusion hcon.2
    · rfl
  · intro d rest count len acc s e s2 h
    unfold dynamicTupleLoop
    rw [h]
  · intro ty fuel hints rdr err s' h
    refine ⟨fun hh => fromReaderAux_err_none ty fuel hints rdr err s' h hh,
      fun hint hh hc => fromReaderAux_err_dup ty fuel hints rdr err s' hint h hh hc,
      fun hint hh hc => fromReaderAux_err_retry ty fuel hints rdr err s' hint h hh hc⟩

theorem hexDecode_invalid : ∀ (cs : List Char), cs.length % 2 = 0 →
    (∃ c ∈ cs, hexVal c = none) → hexDecode cs = .error "invalid character"
  | [] => by
    intro _ h
    simp at h
  | [c] => by
    intro hlen _
    simp at hlen
  | c1 :: c2 :: cs => by
    intro hlen h
    have hlen' : cs.length % 2 = 0 := by
      simp only [List.length_cons] at hlen
      omega
    unfold hexDecode
    cases h1 : hexVal c1 with
    | none => rfl
    | some v1 =>
      cases h2 : hexVal c2 with
      | none => rfl
      | some v2 =>
        obtain ⟨c, hc, hval⟩ := h
        rcases List.mem_cons.mp hc with rfl | hc
        · rw [h1] at hval
          exact Option.noConfusion hval
        rcases List.mem_cons.mp hc with rfl | hc
        · rw [h2] at hval
          exact Option.noConfusion hval
        rw [hexDecode_invalid cs hlen' ⟨c, hc, hval⟩]

theorem hexDecode_ok_shape : ∀ (cs : List Char) (bs : List Nat), hexDecode cs = .ok bs →
    cs.length % 2 = 0 ∧ ∀ c ∈ cs, hexVal c ≠ none
  | [] => by
    intro bs _
    exact ⟨rfl, by simp⟩
  | [c] => by
    intro bs h
    exact Except.noConfusion h
  | c1 :: c2 :: cs => by
    intro bs h
    unfold hexDecode at h
    rcases h1 : hexVal c1 with _ | v1
    · rw [h1] at h
      exact Except.noConfusion h
    rcases h2 : hexVal c2 with _ | v2
    · rw [h1, h2] at h
      exact Except.noConfusion h
    rw [h1, h2] at h
    rcases h3 : hexDecode cs with e | bs'
    · rw [h3] at h
      exact Except.noConfusion h
    obtain ⟨hl, hall⟩ := hexDecode_ok_shape cs bs' h3
    refine ⟨by simp only [List.length_cons]; omega, ?_⟩
    intro c hc
    rcases List.mem_cons.mp hc with rfl | hc
    · rw [h1]
      simp
    rcases List.mem_cons.mp hc with rfl | hc
    · rw [h2]
      simp
    exact hall c hc

/-- C7: hex inputs are decoded by the (spec-modelled) external `hex`
crate: an uppercase hex digit (code points 65-70, `A`-`F`) has no value,
so any even-length input containing one is rejected with "invalid
character"; a `0x` prefix is rejected the same way because `x` has no
value; an accepted input is an even-length stream of characters that all
carry a hex value (lowercase only); and inside `decode_uint` such a
failure surfaces as a `hexParsingE` error, which classifies as a syntax
error.  (Every hex string the decoder hands to `hex::decode` has length
a multiple of 64, so the even-length proviso always holds.) -/
theorem c7_hex_rejection :
    (∀ c : Char, 65 ≤ c.toNat → c.toNat ≤ 70 → hexVal c = none) ∧
    (∀ cs : List Char, cs.length % 2 = 0 → (∃ c ∈ cs, hexVal c = none) →
      hexDecode cs = .error "invalid character") ∧
    (∀ cs : List Char, hexDecode ('0' :: 'x' :: cs) = .error "invalid character") ∧
    (∀ (cs : List Char) (bs : List Nat), hexDecode cs = .ok bs →
      cs.length % 2 = 0 ∧ ∀ c ∈ cs, hexVal c ≠ none) ∧
    (∀ (size : Nat) (cs : List Char) (msg : String), 8 ≤ size → size ≤ 64 →
      hexDecode cs = .error msg →
      decode_uint cs size = .error (.hexParsingE msg) ∧
        (Err.hexParsingE msg).classify = .syn) := by
  refine ⟨?_, hexDecode_invalid, ?_, hexDecode_ok_shape, ?_⟩
  · intro c h1 h2
    unfold hexVal
    rw [if_neg (by omega), if_neg (by omega)]
  · intro cs
    rfl
  · intro size cs msg h8 h64 h
    refine ⟨?_, rfl⟩
    unfold decode_uint
    rw [if_neg (by omega), h]

/-- C3 (amended): there is no `remaining_bytes` counter and no
allocation ceiling in the decoder.  For every declared byte-array length
`L` with `0 < L` and `L + 32 ≤ 2^63` (far beyond the claimed 16 MiB
ceiling; the bound is where `read_byte_array`'s `u64` shift arithmetic
starts to wrap), the decode of a well-formed head (`offset = 32`)
followed by the length word and no payload is never rejected before the
read: it reaches the content read and fails only with the reader's
"insufficient bytes read from reader".  Beyond that bound the `u64`
arithmetic wraps — at `L = 2^63` the shift `len << 1` wraps to 0, and at
`L = 2^63 - 1` the rounded `read_len` wraps to 0 — so the empty read
succeeds and `decode_bytes` reports "decoded bytes are smaller than the
required length"; in no case is a length rejected before the read with
the claimed allocation-space message. -/
theorem c3_no_allocation_cap (L : Nat) (h0 : 0 < L) (hcap : L + 32 ≤ 2 ^ 63) :
    from_str .bytesT (encode_u64 32 ++ encode_u64 L) =
      .error (.message "insufficient bytes read from reader") ∧
    resDesc (from_str .bytesT (encode_u64 32 ++ encode_u64 (2 ^ 63))) =
      "decoded bytes are smaller than the required length" ∧
    resDesc (from_str .bytesT (encode_u64 32 ++ encode_u64 (2 ^ 63 - 1))) =
      "decoded bytes are smaller than the required length" := by
  refine ⟨?_, by decide, by decide⟩
  have h64 : L < 2 ^ 64 := by omega
  have hlen32 : (encode_u64 32).length = 64 := encode_u64_length 32
  have hlenL : (encode_u64 L).length = 64 := encode_u64_length L
  have hdlen : (encode_u64 32 ++ encode_u64 L).length = 128 := by
    rw [List.length_append, hlen32, hlenL]
  have hw1 : (((encode_u64 32 ++ encode_u64 L).drop 0).take 64) = encode_u64 32 := by
    rw [List.drop_zero, ← hlen32, List.take_left]
  have hw2 : (((encode_u64 32 ++ encode_u64 L).drop 64).take 64) = encode_u64 L := by
    have hdq : (encode_u64 32 ++ encode_u64 L).drop 64 = encode_u64 L := by
      rw [← hlen32]
      exact List.drop_left _ _
    rw [hdq, List.take_of_length_le (le_of_eq hlenL)]
  have hm1 : mustRead 64 (⟨encode_u64 32 ++ encode_u64 L, 0⟩ : RState) =
      (.ok (encode_u64 32), ⟨encode_u64 32 ++ encode_u64 L, 64⟩) := by
    rw [mustRead_mk 64 (encode_u64 32 ++ encode_u64 L) 0 (by omega) (by omega), hw1]
  have hm2 : mustRead 64 (⟨encode_u64 32 ++ encode_u64 L, 64⟩ : RState) =
      (.ok (encode_u64 L), ⟨encode_u64 32 ++ encode_u64 L, 128⟩) := by
    rw [mustRead_mk 64 (encode_u64 32 ++ encode_u64 L) 64 (by omega) (by omega), hw2]
  have hd32 : decode_uint (encode_u64 32) 64 = .ok 32 :=
    decode_uint_encode_u64 (by norm_num) (by norm_num) (by norm_num)
  have hdL : decode_uint (encode_u64 L) 64 = .ok L :=
    decode_uint_encode_u64 h64 (by norm_num) (by norm_num)
  have hreadLen : 0 < L * 2 / 64 * 64 + (if L * 2 - L * 2 / 64 * 64 = 0 then 0 else 1) * 64 := by
    by_cases hq : L * 2 / 64 = 0
    · rw [hq]
      rw [if_neg (by omega : ¬(L * 2 - 0 * 64 = 0))]
      omega
    · have h1 : 1 ≤ L * 2 / 64 := by omega
      have h2 : 64 ≤ L * 2 / 64 * 64 := by
        calc (64 : Nat) = 1 * 64 := by omega
        _ ≤ L * 2 / 64 * 64 := Nat.mul_le_mul_right _ h1
      omega
  have hmfail :
      mustRead (L * 2 / 64 * 64 + (if L * 2 - L * 2 / 64 * 64 = 0 then 0 else 1) * 64)
        (⟨encode_u64 32 ++ encode_u64 L, 128⟩ : RState) =
      (.error (.message "insufficient bytes read from reader"),
        ⟨encode_u64 32 ++ encode_u64 L, 128⟩) := by
    rw [mustRead_insufficient_mk _ _ 128 hreadLen (by omega)]
    simp [hdlen]
  have hoff : 32 * 2 % 2 ^ 64 = 64 := by norm_num
  have hnowrapL : L * 2 % 2 ^ 64 = L * 2 := Nat.mod_eq_of_lt (by omega)
  have hnowrapR : (L * 2 / 64 * 64 +
      (if L * 2 - L * 2 / 64 * 64 = 0 then 0 else 1) * 64) % 2 ^ 64 =
      L * 2 / 64 * 64 + (if L * 2 - L * 2 / 64 * 64 = 0 then 0 else 1) * 64 := by
    by_cases hq : L * 2 - L * 2 / 64 * 64 = 0
    · rw [if_pos hq]
      exact Nat.mod_eq_of_lt (by omega)
    · rw [if_neg hq]
      exact Nat.mod_eq_of_lt (by omega)
  have hrba : readByteArray (⟨0, none, ⟨encode_u64 32 ++ encode_u64 L, 0⟩, [], []⟩ : DState) =
      (.error (.message "insufficient bytes read from reader"),
        ⟨0, none, ⟨encode_u64 32 ++ encode_u64 L, 128⟩, [], []⟩) := by
    simp only [readByteArray, readUintHead, readUintTail, topScopeModify, seekStart,
      hoff, hnowrapL, hnowrapR, hm1, hm2, hd32, hdL, hmfail]
  have hdec : decodeTy .bytesT (⟨0, none, ⟨encode_u64 32 ++ encode_u64 L, 0⟩, [], []⟩ : DState) =
      (.error (.message "insufficient bytes read from reader"),
        ⟨0, none, ⟨encode_u64 32 ++ encode_u64 L, 128⟩, [], []⟩) := by
    unfold decodeTy
    rw [hrba]
  unfold from_str
  rw [hdlen]
  rw [show (128 : Nat) + 2 = 129 + 1 by norm_num]
  exact fromReaderAux_err_none .bytesT 129 [] ⟨encode_u64 32 ++ encode_u64 L, 0⟩
    (.message "insufficient bytes read from reader")
    ⟨0, none, ⟨encode_u64 32 ++ encode_u64 L, 128⟩, [], []⟩ hdec rfl

/-- C3: the spec's claimed 16 MiB `remaining_bytes` ceiling (failure
message "deserializer does not have enough space to allocate...")
does not exist: a byte-array decode declaring length `2^23 + 1` — so
`2 × L` exceeds 16 MiB = 16777216 — is not rejected before allocation
with that message; it proceeds to the content read and fails with the
reader's "insufficient bytes read from reader". -/
theorem c3_no_allocation_cap_counterexample :
    resDesc (from_str .bytesT (encode_u64 32 ++ encode_u64 (2 ^ 23 + 1))) =
      "insufficient bytes read from reader" ∧
    16777216 < 2 * (2 ^ 23 + 1) ∧
    "insufficient bytes read from reader" ≠
      "deserializer does not have enough space to allocate..." :=
  ⟨by decide, by decide, by decide⟩

/-- Witness for `c3_no_allocation_cap` at `L = 1`. -/
theorem c3_no_allocation_cap_witness :
    from_str .bytesT (encode_u64 32 ++ encode_u64 1) =
      .error (.message "insufficient bytes read from reader") ∧
    resDesc (from_str .bytesT (encode_u64 32 ++ encode_u64 (2 ^ 63))) =
      "decoded bytes are smaller than the required length" ∧
    resDesc (from_str .bytesT (encode_u64 32 ++ encode_u64 (2 ^ 63 - 1))) =
      "decoded bytes are smaller than the required length" :=
  c3_no_allocation_cap 1 (by norm_num) (by norm_num)

theorem take64_of_append (a b : List Char) (h : a.length = 64) : (a ++ b).take 64 = a := by
  rw [← h, List.take_left]

theorem serializeSimpleNode_aggregateSeq (nodes : List Node) :
    (serializeSimpleNode (aggregateSeq nodes)).take 64 = encode_u64 32 := by
  show (serialize_dynamic _).take 64 = _
  unfold serialize_dynamic
  exact take64_of_append _ _ (encode_u64_length 32)

mutual

theorem dynamic_simplifies : ∀ (v : Value), Value.isDynamic v = true →
    ∃ c, serializeNodeToSimple (buildNode v) = .dynamicN c
  | .strV _, _ => ⟨_, rfl⟩
  | .charV _, _ => ⟨_, rfl⟩
  | .bytesV _, _ => ⟨_, rfl⟩
  | .noneV, _ => ⟨_, rfl⟩
  | .someV _, _ => ⟨_, rfl⟩
  | .seqV _, _ => ⟨_, rfl⟩
  | .tupV vs, h => by
    have hh := anyDynamic_gives_head vs h
    show ∃ c, aggregateTuple (simplifyNodes (buildNodes vs)) = .dynamicN c
    unfold aggregateTuple
    rw [if_pos hh]
    exact ⟨_, rfl⟩
  | .boolV _, h => Bool.noConfusion h
  | .u8V _, h => Bool.noConfusion h
  | .u16V _, h => Bool.noConfusion h
  | .u32V _, h => Bool.noConfusion h
  | .u64V _, h => Bool.noConfusion h
  | .i8V _, h => Bool.noConfusion h
  | .i16V _, h => Bool.noConfusion h
  | .i32V _, h => Bool.noConfusion h
  | .i64V _, h => Bool.noConfusion h
  | .h256V _, h => Bool.noConfusion h
  | .h160V _, h => Bool.noConfusion h
  | .u256V _, h => Bool.noConfusion h

theorem anyDynamic_gives_head : ∀ (vs : List Value), Value.anyDynamic vs = true →
    shouldTupleHaveHead (simplifyNodes (buildNodes vs)) = true
  | [], h => Bool.noConfusion h
  | v :: vs, h => by
    have h' : Value.isDynamic v = true ∨ Value.anyDynamic vs = true := by
      simpa [Value.anyDynamic] using h
    rcases h' with h1 | h2
    · obtain ⟨c, hc⟩ := dynamic_simplifies v h1
      show shouldTupleHaveHead
        (serializeNodeToSimple (buildNode v) :: simplifyNodes (buildNodes vs)) = true
      rw [hc]
      simp [shouldTupleHaveHead]
    · have ht := anyDynamic_gives_head vs h2
      show shouldTupleHaveHead
        (serializeNodeToSimple (buildNode v) :: simplifyNodes (buildNodes vs)) = true
      simp only [shouldTupleHaveHead, List.any_cons] at ht ⊢
      rw [ht]
      simp

end

/-- C8: for every value of a class the spec calls dynamic at top level
(strings, byte arrays, chars, options, variable-length sequences, and
tuples or structs with at least one dynamic member), the encoded stream
begins with the single offset word `encode_uint(32, 64)` — 62 zeros
followed by "20". -/
theorem c8_dynamic_top_prefix (v : Value) (h : Value.isDynamic v = true) :
    (to_string v).take 64 = encode_u64 32 := by
  cases v with
  | strV bs =>
    show (encode_bytes bs).take 64 = _
    unfold encode_bytes
    exact take64_of_append _ _ (encode_u64_length 32)
  | charV bs =>
    show (encode_bytes bs).take 64 = _
    unfold encode_bytes
    exact take64_of_append _ _ (encode_u64_length 32)
  | bytesV bs =>
    show (encode_bytes bs).take 64 = _
    unfold encode_bytes
    exact take64_of_append _ _ (encode_u64_length 32)
  | noneV => exact serializeSimpleNode_aggregateSeq (simplifyNodes [])
  | someV v' => exact serializeSimpleNode_aggregateSeq (simplifyNodes [buildNode v'])
  | seqV vs => exact serializeSimpleNode_aggregateSeq (simplifyNodes (buildNodes vs))
  | tupV vs =>
    have hh := anyDynamic_gives_head vs h
    show (serializeSimpleNode (aggregateTuple (simplifyNodes (buildNodes vs)))).take 64 = _
    unfold aggregateTuple
    rw [if_pos hh]
    show (serialize_dynamic _).take 64 = _
    unfold serialize_dynamic
    exact take64_of_append _ _ (encode_u64_length 32)
  | boolV b => exact Bool.noConfusion h
  | u8V n => exact Bool.noConfusion h
  | u16V n => exact Bool.noConfusion h
  | u32V n => exact Bool.noConfusion h
  | u64V n => exact Bool.noConfusion h
  | i8V n => exact Bool.noConfusion h
  | i16V n => exact Bool.noConfusion h
  | i32V n => exact Bool.noConfusion h
  | i64V n => exact Bool.noConfusion h
  | h256V bs => exact Bool.noConfusion h
  | h160V bs => exact Bool.noConfusion h
  | u256V ls => exact Bool.noConfusion h

/-- Witness for `c8_dynamic_top_prefix`: the empty string. -/
theorem c8_dynamic_top_prefix_witness :
    (to_string (.strV [])).take 64 = encode_u64 32 :=
  c8_dynamic_top_prefix (.strV []) rfl

theorem aggGo_head_prefix : ∀ (nodes : List Node) (head tail : List Char) (off : Nat),
    ∃ s, (aggGo nodes head tail off).1 = head ++ s
  | [], head, tail, off => ⟨[], by simp [aggGo]⟩
  | .fixedN h :: rest, head, tail, off => by
    obtain ⟨s, hs⟩ := aggGo_head_prefix rest (head ++ h) tail off
    refine ⟨h ++ s, ?_⟩
    unfold aggGo
    rw [hs]
    simp [List.append_assoc]
  | .dynamicN t :: rest, head, tail, off => by
    obtain ⟨s, hs⟩ :=
      aggGo_head_prefix rest (head ++ encode_u64 off) (tail ++ t) (off + t.length / 2)
    refine ⟨encode_u64 off ++ s, ?_⟩
    unfold aggGo
    rw [hs]
    simp [List.append_assoc]
  | .seqN v :: rest, head, tail, off => by
    obtain ⟨s, hs⟩ := aggGo_head_prefix rest head tail off
    refine ⟨s, ?_⟩
    unfold aggGo
    exact hs
  | .tupleN v :: rest, head, tail, off => by
    obtain ⟨s, hs⟩ := aggGo_head_prefix rest head tail off
    refine ⟨s, ?_⟩
    unfold aggGo
    exact hs

theorem aggGo_first_dyn : ∀ (pre : List Node) (t : List Char) (rest : List Node)
    (head tail : List Char) (off : Nat), (∀ c : List Char, Node.dynamicN c ∉ pre) →
    ∃ pfx sfx : List Char,
      (aggGo (pre ++ (Node.dynamicN t :: rest)) head tail off).1 =
        head ++ (pfx ++ (encode_u64 off ++ sfx))
  | [], t, rest, head, tail, off => fun _ => by
    obtain ⟨s, hs⟩ :=
      aggGo_head_prefix rest (head ++ encode_u64 off) (tail ++ t) (off + t.length / 2)
    refine ⟨[], s, ?_⟩
    rw [List.nil_append]
    unfold aggGo
    rw [hs]
    simp [List.append_assoc]
  | .fixedN f :: pre, t, rest, head, tail, off => fun hpre => by
    obtain ⟨pfx, sfx, hp⟩ := aggGo_first_dyn pre t rest (head ++ f) tail off
      (fun c hc => hpre c (List.mem_cons_of_mem _ hc))
    refine ⟨f ++ pfx, sfx, ?_⟩
    rw [List.cons_append]
    unfold aggGo
    rw [hp]
    simp [List.append_assoc]
  | .dynamicN c :: pre, t, rest, head, tail, off => fun hpre =>
    absurd (List.mem_cons_self _ _) (hpre c)
  | .seqN v :: pre, t, rest, head, tail, off => fun hpre => by
    obtain ⟨pfx, sfx, hp⟩ := aggGo_first_dyn pre t rest head tail off
      (fun c hc => hpre c (List.mem_cons_of_mem _ hc))
    refine ⟨pfx, sfx, ?_⟩
    rw [List.cons_append]
    unfold aggGo
    exact hp
  | .tupleN v :: pre, t, rest, head, tail, off => fun hpre => by
    obtain ⟨pfx, sfx, hp⟩ := aggGo_first_dyn pre t rest head tail off
      (fun c hc => hpre c (List.mem_cons_of_mem _ hc))
    refine ⟨pfx, sfx, ?_⟩
    rw [List.cons_append]
    unfold aggGo
    exact hp

/-- C9 (amended): when a Sequence node is linearized, the offset
written into the head slot of its first dynamic child equals
`calculate_header_len` of the children — the sum of each Fixed child's
actual byte length plus 32 bytes per dynamic child — not
`32 × number_of_children`; the two agree exactly when every Fixed child
occupies a single 32-byte word. -/
theorem c9_seq_first_dynamic_offset (pre : List Node) (t : List Char) (rest : List Node)
    (hpre : ∀ c : List Char, Node.dynamicN c ∉ pre) :
    (∃ pfx sfx : List Char,
      aggregateSeq (pre ++ (Node.dynamicN t :: rest)) =
        .dynamicN (encode_u64 (pre ++ (Node.dynamicN t :: rest)).length ++
          (pfx ++ (encode_u64 (calculate_header_len (pre ++ (Node.dynamicN t :: rest))) ++
            sfx)))) ∧
    (∀ nodes : List Node,
      (∀ n ∈ nodes, (∃ h, n = Node.fixedN h ∧ h.length = 64) ∨ ∃ c, n = Node.dynamicN c) →
      calculate_header_len nodes = 32 * nodes.length) := by
  constructor
  · obtain ⟨pfx, sfx, hp⟩ := aggGo_first_dyn pre t rest
      (encode_u64 (pre ++ (Node.dynamicN t :: rest)).length) []
      (calculate_header_len (pre ++ (Node.dynamicN t :: rest))) hpre
    refine ⟨pfx, sfx ++ (aggGo (pre ++ (Node.dynamicN t :: rest))
      (encode_u64 (pre ++ (Node.dynamicN t :: rest)).length) []
      (calculate_header_len (pre ++ (Node.dynamicN t :: rest)))).2, ?_⟩
    unfold aggregateSeq
    dsimp only
    rw [hp]
    simp [List.append_assoc]
  · intro nodes hall
    induction nodes with
    | nil => rfl
    | cons n rest ih =>
      have hrest := ih (fun m hm => hall m (List.mem_cons_of_mem _ hm))
      rcases hall n (List.mem_cons_self _ _) with ⟨h, rfl, hlen⟩ | ⟨c, rfl⟩
      · unfold calculate_header_len
        rw [hlen, hrest]
        simp only [List.length_cons]
        omega
      · unfold calculate_header_len
        rw [hrest]
        simp only [List.length_cons]
        omega

/-- C9: the spec claims the offset written for a Sequence's first
dynamic child is `32 × number_of_children`; with a first child that is
a two-word Fixed node (128 hex characters) and a dynamic second child,
the code writes `calculate_header_len = 96` bytes, not `32 × 2 = 64`. -/
theorem c9_seq_offset_counterexample :
    (serializeNode (.seqN [.fixedN (List.replicate 128 '0'), .dynamicN (encode_u64 5)]) ==
      encode_u64 32 ++ encode_u64 2 ++ List.replicate 128 '0' ++ encode_u64 96 ++
        encode_u64 5) = true ∧
    calculate_header_len [.fixedN (List.replicate 128 '0'), .dynamicN (encode_u64 5)] = 96 ∧
    (96 : Nat) ≠ 32 * 2 :=
  ⟨by decide, by decide, by decide⟩

theorem endFn_exhausted (r : RState) (h : r.data.length ≤ r.pos) : endFn r = .ok () := by
  unfold endFn mustRead
  rw [if_neg (by omega : ¬(1 = 0)), if_neg (by omega : ¬(r.pos + 1 ≤ r.data.length))]
  rfl

theorem fromReaderAux_ok (ty : Ty) (fuel : Nat) (hints : List (Nat × BaseType))
    (rdr : RState) (v : Value) (s' : DState)
    (h : decodeTy ty ⟨0, none, rdr, hints, []⟩ = (.ok v, s'))
    (hend : endFn s'.reader = .ok ()) :
    fromReaderAux ty (fuel + 1) hints rdr = .ok v := by
  unfold fromReaderAux
  rw [h]
  dsimp only
  rw [hend]

theorem from_str_word (ty : Ty) (w : List Char) (v : Value) (s' : DState)
    (hlen : w.length = 64)
    (hdec : decodeTy ty ⟨0, none, ⟨w, 0⟩, [], []⟩ = (.ok v, s'))
    (hrd : s'.reader = ⟨w, 64⟩) :
    from_str ty w = .ok v := by
  unfold from_str
  rw [hlen]
  show fromReaderAux ty (65 + 1) [] ⟨w, 0⟩ = _
  refine fromReaderAux_ok ty 65 [] ⟨w, 0⟩ v s' hdec ?_
  rw [hrd]
  exact endFn_exhausted ⟨w, 64⟩ (show w.length ≤ 64 by omega)

theorem mustRead_whole (w : List Char) (hlen : w.length = 64) :
    mustRead 64 (⟨w, 0⟩ : RState) = (.ok w, ⟨w, 64⟩) := by
  rw [mustRead_mk 64 w 0 (by omega) (by omega), List.drop_zero,
    List.take_of_length_le (le_of_eq hlen)]

theorem set_all_lt {l : List Nat} {i v : Nat} (h : ∀ b ∈ l, b < 256) (hv : v < 256) :
    ∀ b ∈ l.set i v, b < 256 := by
  intro b hb
  rcases List.mem_or_eq_of_mem_set hb with hb | rfl
  · exact h b hb
  · exact hv

theorem writeBytesAt_all_lt : ∀ (bs content : List Nat) (p : Nat),
    (∀ b ∈ content, b < 256) → ∀ b ∈ writeBytesAt content p bs, b < 256
  | [], _, _, h => h
  | b :: bs, content, p, h =>
    writeBytesAt_all_lt bs _ (p + 1) (set_all_lt h (Nat.mod_lt _ (by norm_num)))

theorem writeBytesAt_length : ∀ (bs content : List Nat) (p : Nat),
    (writeBytesAt content p bs).length = content.length
  | [], _, _ => rfl
  | b :: bs, content, p => by
    show (writeBytesAt (content.set p (b % 256)) (p + 1) bs).length = _
    rw [writeBytesAt_length bs _ (p + 1), List.length_set]

theorem getD_writeBytesAt_lt : ∀ (bs content : List Nat) (p q : Nat), q < p →
    (writeBytesAt content p bs).getD q 0 = content.getD q 0
  | [], _, _, _, _ => rfl
  | b :: bs, content, p, q, hq => by
    show (writeBytesAt (content.set p (b % 256)) (p + 1) bs).getD q 0 = _
    rw [getD_writeBytesAt_lt bs _ (p + 1) q (by omega)]
    rw [List.getD_eq_getElem?_getD, List.getD_eq_getElem?_getD,
      List.getElem?_set_ne (by omega : p ≠ q)]

theorem readBytesAt_writeBytesAt : ∀ (bs content : List Nat) (p : Nat),
    p + bs.length ≤ content.length → (∀ b ∈ bs, b < 256) →
    readBytesAt (writeBytesAt content p bs) p bs.length = bs
  | [], _, _, _, _ => rfl
  | b :: bs, content, p, hle, hlt => by
    have hp : p < content.length := by
      simp only [List.length_cons] at hle
      omega
    have h1 : (writeBytesAt (content.set p (b % 256)) (p + 1) bs).getD p 0 = b := by
      rw [getD_writeBytesAt_lt bs _ (p + 1) p (by omega)]
      rw [List.getD_eq_getElem?_getD, List.getElem?_set_eq hp]
      simp only [Option.getD_some]
      exact Nat.mod_eq_of_lt (hlt b (List.mem_cons_self _ _))
    have h2 : readBytesAt (writeBytesAt (content.set p (b % 256)) (p + 1) bs)
        (p + 1) bs.length = bs :=
      readBytesAt_writeBytesAt bs (content.set p (b % 256)) (p + 1)
        (by rw [List.length_set]; simp only [List.length_cons] at hle; omega)
        (fun x hx => hlt x (List.mem_cons_of_mem _ hx))
    show (writeBytesAt (content.set p (b % 256)) (p + 1) bs).getD p 0 ::
        readBytesAt (writeBytesAt (content.set p (b % 256)) (p + 1) bs)
          (p + 1) bs.length = b :: bs
    rw [h1, h2]

theorem h256Content_length (bs : List Nat) : (h256Content bs).length = 32 := by
  rw [h256Content, writeBytesAt_length]
  simp

theorem h256Content_lt (bs : List Nat) : ∀ b ∈ h256Content bs, b < 256 :=
  writeBytesAt_all_lt bs _ 0 (by simp)

theorem h256_read (bs : List Nat) (hl : bs.length = 32) (hb : ∀ b ∈ bs, b < 256) :
    readBytesAt (h256Content bs) 0 32 = bs := by
  rw [← hl]
  exact readBytesAt_writeBytesAt bs _ 0 (by simp [hl]) hb

theorem h160Content_length (bs : List Nat) : (h160Content bs).length = 32 := by
  rw [h160Content, writeBytesAt_length]
  simp

theorem h160Content_lt (bs : List Nat) : ∀ b ∈ h160Content bs, b < 256 :=
  writeBytesAt_all_lt bs _ 12 (by simp)

theorem h160_read (bs : List Nat) (hl : bs.length = 20) (hb : ∀ b ∈ bs, b < 256) :
    readBytesAt (h160Content bs) 12 20 = bs := by
  rw [← hl]
  exact readBytesAt_writeBytesAt bs _ 12 (by simp [hl]) hb

theorem writeLimbAt_length (content : List Nat) (p l : Nat) :
    (writeLimbAt content p l).length = content.length := by
  simp [writeLimbAt, List.length_set]

theorem writeLimbAt_all_lt (content : List Nat) (p l : Nat)
    (h : ∀ b ∈ content, b < 256) : ∀ b ∈ writeLimbAt content p l, b < 256 := by
  unfold writeLimbAt
  dsimp only
  exact set_all_lt (set_all_lt (set_all_lt (set_all_lt (set_all_lt (set_all_lt (set_all_lt
    (set_all_lt h (Nat.mod_lt _ (by norm_num))) (Nat.mod_lt _ (by norm_num)))
    (Nat.mod_lt _ (by norm_num))) (Nat.mod_lt _ (by norm_num))) (Nat.mod_lt _ (by norm_num)))
    (Nat.mod_lt _ (by norm_num))) (Nat.mod_lt _ (by norm_num))) (Nat.mod_lt _ (by norm_num))

theorem writeLimbsAt_length : ∀ (ls content : List Nat) (p : Nat),
    (writeLimbsAt content p ls).length = content.length
  | [], _, _ => rfl
  | l :: ls, content, p => by
    show (writeLimbsAt (writeLimbAt content p l) (p - 8) ls).length = _
    rw [writeLimbsAt_length ls _ (p - 8), writeLimbAt_length]

theorem writeLimbsAt_all_lt : ∀ (ls content : List Nat) (p : Nat),
    (∀ b ∈ content, b < 256) → ∀ b ∈ writeLimbsAt content p ls, b < 256
  | [], _, _, h => h
  | l :: ls, content, p, h =>
    writeLimbsAt_all_lt ls _ (p - 8) (writeLimbAt_all_lt content p l h)

theorem u256Content_length (ls : List Nat) : (u256Content ls).length = 32 := by
  rw [u256Content, writeLimbsAt_length]
  simp

theorem u256Content_lt (ls : List Nat) : ∀ b ∈ u256Content ls, b < 256 :=
  writeLimbsAt_all_lt ls _ 31 (by simp)

theorem getD_writeLimbAt_gt (content : List Nat) (p l q : Nat) (h : p < q) :
    (writeLimbAt content p l).getD q 0 = content.getD q 0 := by
  unfold writeLimbAt
  dsimp only
  simp (disch := omega) only [List.getD_eq_getElem?_getD, List.getElem?_set_ne]

theorem readLimbAt_writeLimbAt_lt (content : List Nat) (p' l' p : Nat) (h : p' + 8 ≤ p) :
    readLimbAt (writeLimbAt content p' l') p = readLimbAt content p := by
  unfold readLimbAt
  rw [getD_writeLimbAt_gt content p' l' p (by omega),
    getD_writeLimbAt_gt content p' l' (p - 1) (by omega),
    getD_writeLimbAt_gt content p' l' (p - 2) (by omega),
    getD_writeLimbAt_gt content p' l' (p - 3) (by omega),
    getD_writeLimbAt_gt content p' l' (p - 4) (by omega),
    getD_writeLimbAt_gt content p' l' (p - 5) (by omega),
    getD_writeLimbAt_gt content p' l' (p - 6) (by omega),
    getD_writeLimbAt_gt content p' l' (p - 7) (by omega)]

theorem readLimbAt_writeLimbAt (content : List Nat) (p l : Nat) (hp7 : 7 ≤ p)
    (hplen : p < content.length) (hl : l < 2 ^ 64) :
    readLimbAt (writeLimbAt content p l) p = l := by
  unfold writeLimbAt readLimbAt
  dsimp only
  simp (disch := (try simp only [List.length_set]); omega) only [List.getD_eq_getElem?_getD,
    List.getElem?_set_ne, List.getElem?_set_self, Option.getD_some]
  omega

theorem u256_read (l0 l1 l2 l3 : Nat) (h0 : l0 < 2 ^ 64) (h1 : l1 < 2 ^ 64)
    (h2 : l2 < 2 ^ 64) (h3 : l3 < 2 ^ 64) :
    readLimbsAt (u256Content [l0, l1, l2, l3]) 31 4 = [l0, l1, l2, l3] := by
  have hW : u256Content [l0, l1, l2, l3] =
      writeLimbAt (writeLimbAt (writeLimbAt (writeLimbAt (List.replicate 32 0) 31 l0)
        23 l1) 15 l2) 7 l3 := rfl
  have hsplit : readLimbsAt (u256Content [l0, l1, l2, l3]) 31 4 =
      [readLimbAt (u256Content [l0, l1, l2, l3]) 31,
       readLimbAt (u256Content [l0, l1, l2, l3]) 23,
       readLimbAt (u256Content [l0, l1, l2, l3]) 15,
       readLimbAt (u256Content [l0, l1, l2, l3]) 7] := rfl
  have hlen1 : (writeLimbAt (List.replicate 32 0) 31 l0).length = 32 := by
    rw [writeLimbAt_length]
    simp
  have hlen2 : (writeLimbAt (writeLimbAt (List.replicate 32 0) 31 l0) 23 l1).length = 32 := by
    rw [writeLimbAt_length, hlen1]
  have e0 : readLimbAt (u256Content [l0, l1, l2, l3]) 31 = l0 := by
    rw [hW, readLimbAt_writeLimbAt_lt _ 7 l3 31 (by omega),
      readLimbAt_writeLimbAt_lt _ 15 l2 31 (by omega),
      readLimbAt_writeLimbAt_lt _ 23 l1 31 (by omega)]
    exact readLimbAt_writeLimbAt _ 31 l0 (by omega) (by simp) h0
  have e1 : readLimbAt (u256Content [l0, l1, l2, l3]) 23 = l1 := by
    rw [hW, readLimbAt_writeLimbAt_lt _ 7 l3 23 (by omega),
      readLimbAt_writeLimbAt_lt _ 15 l2 23 (by omega)]
    exact readLimbAt_writeLimbAt _ 23 l1 (by omega) (by rw [hlen1]; omega) h1
  have e2 : readLimbAt (u256Content [l0, l1, l2, l3]) 15 = l2 := by
    rw [hW, readLimbAt_writeLimbAt_lt _ 7 l3 15 (by omega)]
    exact readLimbAt_writeLimbAt _ 15 l2 (by omega) (by rw [hlen2]; omega) h2
  have e3 : readLimbAt (u256Content [l0, l1, l2, l3]) 7 = l3 := by
    rw [hW]
    refine readLimbAt_writeLimbAt _ 7 l3 (by omega) ?_ h3
    rw [writeLimbAt_length, hlen2]
    omega
  rw [hsplit, e0, e1, e2, e3]

theorem bytesPad_lt (bs : List Nat) (h : ∀ b ∈ bs, b < 256) : ∀ b ∈ bytesPad bs, b < 256 := by
  intro b hb
  rcases List.mem_append.mp hb with hb | hb
  · exact h b hb
  · have := List.eq_of_mem_replicate hb
    omega

theorem bytesPad_length (bs : List Nat) :
    (bytesPad bs).length = bs.length + (32 - bs.length % 32) % 32 := by
  simp [bytesPad]

theorem bytesPad_take (bs : List Nat) : (bytesPad bs).take bs.length = bs := by
  rw [bytesPad, List.take_left]

theorem readLen_eq (L : Nat) :
    L * 2 / 64 * 64 + (if L * 2 - L * 2 / 64 * 64 = 0 then 0 else 1) * 64 =
      2 * (L + (32 - L % 32) % 32) := by
  by_cases h : L * 2 - L * 2 / 64 * 64 = 0
  · rw [if_pos h]
    omega
  · rw [if_neg h]
    omega

theorem decode_bytes_pad (bs : List Nat) (hb : ∀ b ∈ bs, b < 256) :
    decode_bytes (hexEncode (bytesPad bs)) bs.length = .ok bs := by
  unfold decode_bytes
  rw [hexDecode_hexEncode (bytesPad_lt bs hb)]
  dsimp only
  rw [if_neg (by rw [bytesPad_length]; omega), bytesPad_take]

theorem from_str_total (ty : Ty) (data : List Char) (v : Value) (s' : DState)
    (hdec : decodeTy ty ⟨0, none, ⟨data, 0⟩, [], []⟩ = (.ok v, s'))
    (hrd : s'.reader = ⟨data, data.length⟩) :
    from_str ty data = .ok v := by
  unfold from_str
  show fromReaderAux ty (data.length + 1 + 1) [] ⟨data, 0⟩ = _
  refine fromReaderAux_ok ty (data.length + 1) [] ⟨data, 0⟩ v s' hdec ?_
  rw [hrd]
  exact endFn_exhausted ⟨data, data.length⟩ (le_refl _)

theorem readByteArray_encode (bs : List Nat) (hb : ∀ b ∈ bs, b < 256)
    (hcap : bs.length + 32 ≤ 2 ^ 63) :
    readByteArray ⟨0, none, ⟨encode_bytes bs, 0⟩, [], []⟩ =
      (.ok bs, ⟨0, none, ⟨encode_bytes bs, (encode_bytes bs).length⟩, [], []⟩) := by
  have hlen : bs.length < 2 ^ 64 := by omega
  have hsplit : encode_bytes bs =
      encode_u64 32 ++ (encode_u64 bs.length ++ hexEncode (bytesPad bs)) := by
    rw [encode_bytes, List.append_assoc]
  have hPlen : (hexEncode (bytesPad bs)).length =
      2 * (bs.length + (32 - bs.length % 32) % 32) := by
    rw [hexEncode_length, bytesPad_length]
  have hdlen : (encode_bytes bs).length =
      128 + 2 * (bs.length + (32 - bs.length % 32) % 32) := by
    rw [hsplit]
    simp only [List.length_append, encode_u64_length, hPlen]
    omega
  have hdrop64 : (encode_bytes bs).drop 64 =
      encode_u64 bs.length ++ hexEncode (bytesPad bs) := by
    rw [hsplit, ← encode_u64_length 32, List.drop_left]
  have hdrop128 : (encode_bytes bs).drop 128 = hexEncode (bytesPad bs) := by
    have h1 : (encode_bytes bs).drop 128 = ((encode_bytes bs).drop 64).drop 64 := by
      rw [List.drop_drop]
    rw [h1, hdrop64, ← encode_u64_length bs.length, List.drop_left]
  have hw1 : ((encode_bytes bs).drop 0).take 64 = encode_u64 32 := by
    rw [List.drop_zero, hsplit]
    exact take64_of_append _ _ (encode_u64_length 32)
  have hw2 : ((encode_bytes bs).drop 64).take 64 = encode_u64 bs.length := by
    rw [hdrop64]
    exact take64_of_append _ _ (encode_u64_length bs.length)
  have hm1 : mustRead 64 (⟨encode_bytes bs, 0⟩ : RState) =
      (.ok (encode_u64 32), ⟨encode_bytes bs, 64⟩) := by
    rw [mustRead_mk 64 (encode_bytes bs) 0 (by omega) (by omega), hw1]
  have hm2 : mustRead 64 (⟨encode_bytes bs, 64⟩ : RState) =
      (.ok (encode_u64 bs.length), ⟨encode_bytes bs, 128⟩) := by
    rw [mustRead_mk 64 (encode_bytes bs) 64 (by omega) (by omega), hw2]
  have hd32 : decode_uint (encode_u64 32) 64 = .ok 32 :=
    decode_uint_encode_u64 (by norm_num) (by norm_num) (by norm_num)
  have hdL : decode_uint (encode_u64 bs.length) 64 = .ok bs.length :=
    decode_uint_encode_u64 hlen (by norm_num) (by norm_num)
  have hdb : decode_bytes (hexEncode (bytesPad bs)) bs.length = .ok bs :=
    decode_bytes_pad bs hb
  by_cases hL0 : bs.length = 0
  · have hnil : bs = [] := List.eq_nil_of_length_eq_zero hL0
    subst hnil
    decide
  · have hm3 : mustRead (bs.length * 2 / 64 * 64 +
        (if bs.length * 2 - bs.length * 2 / 64 * 64 = 0 then 0 else 1) * 64)
        (⟨encode_bytes bs, 128⟩ : RState) =
        (.ok (hexEncode (bytesPad bs)), ⟨encode_bytes bs, (encode_bytes bs).length⟩) := by
      have hR := readLen_eq bs.length
      rw [mustRead_mk _ (encode_bytes bs) 128 (by omega) (by omega)]
      rw [hdrop128, List.take_of_length_le (by omega)]
      have hpos : 128 + (bs.length * 2 / 64 * 64 +
          (if bs.length * 2 - bs.length * 2 / 64 * 64 = 0 then 0 else 1) * 64) =
          (encode_bytes bs).length := by omega
      rw [hpos]
    have hoff : 32 * 2 % 2 ^ 64 = 64 := by norm_num
    have hnowrap : bs.length * 2 % 2 ^ 64 = bs.length * 2 :=
      Nat.mod_eq_of_lt (by omega)
    have hnowrapR : (bs.length * 2 / 64 * 64 +
        (if bs.length * 2 - bs.length * 2 / 64 * 64 = 0 then 0 else 1) * 64) % 2 ^ 64 =
        bs.length * 2 / 64 * 64 +
          (if bs.length * 2 - bs.length * 2 / 64 * 64 = 0 then 0 else 1) * 64 := by
      by_cases hq : bs.length * 2 - bs.length * 2 / 64 * 64 = 0
      · rw [if_pos hq]
        exact Nat.mod_eq_of_lt (by omega)
      · rw [if_neg hq]
        exact Nat.mod_eq_of_lt (by omega)
    simp only [readByteArray, readUintHead, readUintTail, topScopeModify, seekStart,
      hoff, hnowrap, hnowrapR, hm1, hm2, hm3, hd32, hdL, hdb]

theorem from_str_bytes (bs : List Nat) (hb : ∀ b ∈ bs, b < 256)
    (hcap : bs.length + 32 ≤ 2 ^ 63) :
    from_str .bytesT (encode_bytes bs) = .ok (.bytesV bs) := by
  refine from_str_total .bytesT _ _
    ⟨0, none, ⟨encode_bytes bs, (encode_bytes bs).length⟩, [], []⟩ ?_ rfl
  simp only [decodeTy, readByteArray_encode bs hb hcap]

theorem from_str_str (bs : List Nat) (hb : ∀ b ∈ bs, b < 256)
    (hcap : bs.length + 32 ≤ 2 ^ 63) (hvalid : utf8Valid bs = true) :
    from_str .strT (encode_bytes bs) = .ok (.strV bs) := by
  refine from_str_total .strT _ _
    ⟨0, none, ⟨encode_bytes bs, (encode_bytes bs).length⟩, [], []⟩ ?_ rfl
  simp only [decodeTy, readStr, readByteArray_encode bs hb hcap]
  rw [if_pos hvalid]

theorem utf8CharLen_le (b : Nat) : utf8CharLen b ≤ 4 := by
  unfold utf8CharLen
  split
  · omega
  split
  · omega
  split
  · omega
  · omega

theorem from_str_char (bs : List Nat) (hb : ∀ b ∈ bs, b < 256)
    (hvalid : utf8Valid bs = true) (hne : bs ≠ [])
    (hone : bs.length = utf8CharLen (bs.headD 0)) :
    from_str .charT (encode_bytes bs) = .ok (.charV bs) := by
  have hcap : bs.length + 32 ≤ 2 ^ 63 := by
    have := utf8CharLen_le (bs.headD 0)
    have h4 : bs.length ≤ 4 := by omega
    omega
  refine from_str_total .charT _ _
    ⟨0, none, ⟨encode_bytes bs, (encode_bytes bs).length⟩, [], []⟩ ?_ rfl
  simp only [decodeTy, readChar, readByteArray_encode bs hb hcap]
  rw [if_neg (by have := utf8CharLen_le (bs.headD 0); omega), if_pos hvalid]
  rcases bs with _ | ⟨b, rest⟩
  · exact absurd rfl hne
  · dsimp only
    rw [show firstUtf8Char (b :: rest) = (b :: rest).take (utf8CharLen ((b :: rest).headD 0))
      from rfl]
    rw [← hone, List.take_length]

theorem decode_bytes_exact (bs : List Nat) (h : ∀ b ∈ bs, b < 256) (hlen : bs.length = 32) :
    decode_bytes (hexEncode bs) 32 = .ok bs := by
  unfold decode_bytes
  rw [hexDecode_hexEncode h]
  dsimp only
  rw [if_neg (by omega), List.take_of_length_le (le_of_eq hlen)]

theorem decode_h256 (bs : List Nat) (hl : bs.length = 32) (hb : ∀ b ∈ bs, b < 256) :
    from_str .h256T (hexEncode (h256Content bs)) = .ok (.h256V bs) := by
  have hwlen : (hexEncode (h256Content bs)).length = 64 := by
    rw [hexEncode_length, h256Content_length]
  have hm := mustRead_whole _ hwlen
  have hdb : decode_bytes (hexEncode (h256Content bs)) 32 = .ok (h256Content bs) :=
    decode_bytes_exact _ (h256Content_lt bs) (h256Content_length bs)
  have hF : Fixed.get "H256" = some .h256 := by decide
  refine from_str_word .h256T _ _
    ⟨0 + 1, none, ⟨hexEncode (h256Content bs), 64⟩, [], []⟩ hwlen ?_ rfl
  simp only [decodeTy, hF, deserializeTuple, tupleBase, readCustomTuple, topScopeModify,
    hm, hdb, ethFixedValue]
  rw [h256_read bs hl hb]

theorem decode_h160 (bs : List Nat) (hl : bs.length = 20) (hb : ∀ b ∈ bs, b < 256) :
    from_str .h160T (hexEncode (h160Content bs)) = .ok (.h160V bs) := by
  have hwlen : (hexEncode (h160Content bs)).length = 64 := by
    rw [hexEncode_length, h160Content_length]
  have hm := mustRead_whole _ hwlen
  have hdb : decode_bytes (hexEncode (h160Content bs)) 32 = .ok (h160Content bs) :=
    decode_bytes_exact _ (h160Content_lt bs) (h160Content_length bs)
  have hF : Fixed.get "H160" = some .h160 := by decide
  refine from_str_word .h160T _ _
    ⟨0 + 1, none, ⟨hexEncode (h160Content bs), 64⟩, [], []⟩ hwlen ?_ rfl
  simp only [decodeTy, hF, deserializeTuple, tupleBase, readCustomTuple, topScopeModify,
    hm, hdb, ethFixedValue]
  rw [h160_read bs hl hb]

theorem decode_u256 (l0 l1 l2 l3 : Nat) (h0 : l0 < 2 ^ 64) (h1 : l1 < 2 ^ 64)
    (h2 : l2 < 2 ^ 64) (h3 : l3 < 2 ^ 64) :
    from_str .u256T (hexEncode (u256Content [l0, l1, l2, l3])) =
      .ok (.u256V [l0, l1, l2, l3]) := by
  have hwlen : (hexEncode (u256Content [l0, l1, l2, l3])).length = 64 := by
    rw [hexEncode_length, u256Content_length]
  have hm := mustRead_whole _ hwlen
  have hdb : decode_bytes (hexEncode (u256Content [l0, l1, l2, l3])) 32 =
      .ok (u256Content [l0, l1, l2, l3]) :=
    decode_bytes_exact _ (u256Content_lt _) (u256Content_length _)
  have hF : Fixed.get "U256" = some .u256 := by decide
  refine from_str_word .u256T _ _
    ⟨0 + 1, none, ⟨hexEncode (u256Content [l0, l1, l2, l3]), 64⟩, [], []⟩ hwlen ?_ rfl
  simp only [decodeTy, hF, deserializeTuple, tupleBase, readCustomTuple, topScopeModify,
    hm, hdb, ethFixedValue]
  rw [u256_read l0 l1 l2 l3 h0 h1 h2 h3]

theorem encode_bool_length (b : Bool) : (encode_bool b).length = 64 := by
  cases b <;> decide

theorem encode_i64_length (v : Int) : (encode_i64 v).length = 64 := by
  rw [encode_i64, hexEncode_length, pad_i64_length]

theorem decode_bool_encode_bool (b : Bool) : decode_bool (encode_bool b) = .ok b := by
  cases b <;> decide

theorem i64AsIw_id (w : Nat) (v : Int) (hw : 1 ≤ w)
    (h1 : -(2 ^ (w - 1)) ≤ v) (h2 : v < 2 ^ (w - 1)) :
    i64AsIw w v = v := by
  unfold i64AsIw
  have hlt : (2 : Int) ^ (w - 1) * 2 = 2 ^ w := by
    rw [← pow_succ]
    congr 1
    omega
  have h2w : (0 : Int) < 2 ^ w := by positivity
  have h2w1 : (0 : Int) < 2 ^ (w - 1) := by positivity
  by_cases h0 : 0 ≤ v
  · have hm : v.emod (2 ^ w) = v := Int.emod_eq_of_lt h0 (by omega)
    dsimp only
    rw [hm, if_pos h2]
  · have hm : v.emod (2 ^ w) = v + 2 ^ w := by
      have hself : (v + 2 ^ w * 1) % (2 ^ w) = v % (2 ^ w) :=
        Int.add_mul_emod_self_left v (2 ^ w) 1
      rw [mul_one] at hself
      have heq : (v + 2 ^ w) % (2 ^ w) = v + 2 ^ w :=
        Int.emod_eq_of_lt (by omega) (by omega)
      have hgoal : v % (2 ^ w) = v + 2 ^ w := by rw [← hself, heq]
      exact hgoal
    dsimp only
    rw [hm, if_neg (by omega)]
    omega

theorem deserializeUint_word (size : Nat) (w : List Char) (n : Nat)
    (hlen : w.length = 64) (hdec : decode_uint w size = .ok n) :
    deserializeUint size ⟨0, none, ⟨w, 0⟩, [], []⟩ =
      (.ok n, ⟨0, none, ⟨w, 64⟩, [], []⟩) := by
  have hm := mustRead_whole w hlen
  simp only [deserializeUint, readUintHead, topScopeModify, hm, hdec]

theorem deserializeInt_word (size : Nat) (w : List Char) (x : Int)
    (hlen : w.length = 64) (hdec : decode_int w size = .ok x) :
    deserializeInt size ⟨0, none, ⟨w, 0⟩, [], []⟩ =
      (.ok x, ⟨0, none, ⟨w, 64⟩, [], []⟩) := by
  have hm := mustRead_whole w hlen
  simp only [deserializeInt, readIntHead, topScopeModify, hm, hdec]

theorem from_str_bool (b : Bool) : from_str .boolT (encode_bool b) = .ok (.boolV b) := by
  refine from_str_word .boolT _ _ ⟨0, none, ⟨encode_bool b, 64⟩, [], []⟩
    (encode_bool_length b) ?_ rfl
  have hm := mustRead_whole _ (encode_bool_length b)
  simp only [decodeTy, deserializeBool, topScopeModify, hm, decode_bool_encode_bool]

/-- C1 (amended): round-trip holds on the flat universe — booleans,
8-to-64-bit unsigned and signed integers, strings, chars, byte arrays,
and the fixed big-integer types H256, H160 and U256 — for every
well-formed value: `from_str` applied to `to_string v` succeeds and
yields `v`.  (For compound values the round-trip fails in general: see
the counterexample, where a tuple whose first member is a 256-bit hash
is mis-dispatched by the `peek_uint` guess.) -/
theorem c1_flat_roundtrip (v : Value) (h : flatOk v = true) :
    from_str (flatTy v) (to_string v) = .ok v := by
  cases v with
  | boolV b => exact from_str_bool b
  | u8V n =>
    have hn : n < 2 ^ 8 := by simpa [flatOk] using h
    have hd : decode_uint (encode_u64 n) 8 = .ok n :=
      decode_uint_encode_u64 hn (by norm_num) (by norm_num)
    show from_str .u8T (encode_u64 n) = .ok (.u8V n)
    refine from_str_word .u8T _ _ ⟨0, none, ⟨encode_u64 n, 64⟩, [], []⟩
      (encode_u64_length n) ?_ rfl
    simp only [decodeTy, deserializeUint_word 8 (encode_u64 n) n (encode_u64_length n) hd]
    rw [Nat.mod_eq_of_lt hn]
  | u16V n =>
    have hn : n < 2 ^ 16 := by simpa [flatOk] using h
    have hd : decode_uint (encode_u64 n) 16 = .ok n :=
      decode_uint_encode_u64 hn (by norm_num) (by norm_num)
    show from_str .u16T (encode_u64 n) = .ok (.u16V n)
    refine from_str_word .u16T _ _ ⟨0, none, ⟨encode_u64 n, 64⟩, [], []⟩
      (encode_u64_length n) ?_ rfl
    simp only [decodeTy, deserializeUint_word 16 (encode_u64 n) n (encode_u64_length n) hd]
    rw [Nat.mod_eq_of_lt hn]
  | u32V n =>
    have hn : n < 2 ^ 32 := by simpa [flatOk] using h
    have hd : decode_uint (encode_u64 n) 32 = .ok n :=
      decode_uint_encode_u64 hn (by norm_num) (by norm_num)
    show from_str .u32T (encode_u64 n) = .ok (.u32V n)
    refine from_str_word .u32T _ _ ⟨0, none, ⟨encode_u64 n, 64⟩, [], []⟩
      (encode_u64_length n) ?_ rfl
    simp only [decodeTy, deserializeUint_word 32 (encode_u64 n) n (encode_u64_length n) hd]
    rw [Nat.mod_eq_of_lt hn]
  | u64V n =>
    have hn : n < 2 ^ 64 := by simpa [flatOk] using h
    have hd : decode_uint (encode_u64 n) 64 = .ok n :=
      decode_uint_encode_u64 hn (by norm_num) (by norm_num)
    show from_str .u64T (encode_u64 n) = .ok (.u64V n)
    refine from_str_word .u64T _ _ ⟨0, none, ⟨encode_u64 n, 64⟩, [], []⟩
      (encode_u64_length n) ?_ rfl
    simp only [decodeTy, deserializeUint_word 64 (encode_u64 n) n (encode_u64_length n) hd]
  | i8V x =>
    have hx : -(2 ^ 7) ≤ x ∧ x < 2 ^ 7 := by simpa [flatOk] using h
    have hd : decode_int (encode_i64 x) 8 = .ok x :=
      decode_int_encode_i64 hx.1 hx.2 (by norm_num) (by norm_num)
    show from_str .i8T (encode_i64 x) = .ok (.i8V x)
    refine from_str_word .i8T _ _ ⟨0, none, ⟨encode_i64 x, 64⟩, [], []⟩
      (encode_i64_length x) ?_ rfl
    simp only [decodeTy, deserializeInt_word 8 (encode_i64 x) x (encode_i64_length x) hd]
    rw [i64AsIw_id 8 x (by norm_num) hx.1 hx.2]
  | i16V x =>
    have hx : -(2 ^ 15) ≤ x ∧ x < 2 ^ 15 := by simpa [flatOk] using h
    have hd : decode_int (encode_i64 x) 16 = .ok x :=
      decode_int_encode_i64 hx.1 hx.2 (by norm_num) (by norm_num)
    show from_str .i16T (encode_i64 x) = .ok (.i16V x)
    refine from_str_word .i16T _ _ ⟨0, none, ⟨encode_i64 x, 64⟩, [], []⟩
      (encode_i64_length x) ?_ rfl
    simp only [decodeTy, deserializeInt_word 16 (encode_i64 x) x (encode_i64_length x) hd]
    rw [i64AsIw_id 16 x (by norm_num) hx.1 hx.2]
  | i32V x =>
    have hx : -(2 ^ 31) ≤ x ∧ x < 2 ^ 31 := by simpa [flatOk] using h
    have hd : decode_int (encode_i64 x) 32 = .ok x :=
      decode_int_encode_i64 hx.1 hx.2 (by norm_num) (by norm_num)
    show from_str .i32T (encode_i64 x) = .ok (.i32V x)
    refine from_str_word .i32T _ _ ⟨0, none, ⟨encode_i64 x, 64⟩, [], []⟩
      (encode_i64_length x) ?_ rfl
    simp only [decodeTy, deserializeInt_word 32 (encode_i64 x) x (encode_i64_length x) hd]
    rw [i64AsIw_id 32 x (by norm_num) hx.1 hx.2]
  | i64V x =>
    have hx : -(2 ^ 63) ≤ x ∧ x < 2 ^ 63 := by simpa [flatOk] using h
    have hd : decode_int (encode_i64 x) 64 = .ok x :=
      decode_int_encode_i64 hx.1 hx.2 (by norm_num) (by norm_num)
    show from_str .i64T (encode_i64 x) = .ok (.i64V x)
    refine from_str_word .i64T _ _ ⟨0, none, ⟨encode_i64 x, 64⟩, [], []⟩
      (encode_i64_length x) ?_ rfl
    simp only [decodeTy, deserializeInt_word 64 (encode_i64 x) x (encode_i64_length x) hd]
  | strV bs =>
    have hx : utf8Valid bs = true ∧ (∀ b ∈ bs, b < 256) ∧ bs.length + 32 ≤ 2 ^ 63 := by
      simpa [flatOk, List.all_eq_true, and_assoc] using h
    exact from_str_str bs hx.2.1 hx.2.2 hx.1
  | charV bs =>
    have hx : utf8Valid bs = true ∧ (∀ b ∈ bs, b < 256) ∧
        (bs ≠ [] ∧ bs.length = utf8CharLen (bs.headD 0)) := by
      simpa [flatOk, List.all_eq_true, and_assoc] using h
    exact from_str_char bs hx.2.1 hx.1 hx.2.2.1 hx.2.2.2
  | bytesV bs =>
    have hx : (∀ b ∈ bs, b < 256) ∧ bs.length + 32 ≤ 2 ^ 63 := by
      simpa [flatOk, List.all_eq_true] using h
    exact from_str_bytes bs hx.1 hx.2
  | h256V bs =>
    have hx : (∀ b ∈ bs, b < 256) ∧ bs.length = 32 := by
      simpa [flatOk, List.all_eq_true] using h
    exact decode_h256 bs hx.2 hx.1
  | h160V bs =>
    have hx : (∀ b ∈ bs, b < 256) ∧ bs.length = 20 := by
      simpa [flatOk, List.all_eq_true] using h
    exact decode_h160 bs hx.2 hx.1
  | u256V ls =>
    have hx : (∀ l ∈ ls, l < 2 ^ 64) ∧ ls.length = 4 := by
      simpa [flatOk, List.all_eq_true] using h
    obtain ⟨hall, hlen4⟩ := hx
    rcases ls with _ | ⟨l0, _ | ⟨l1, _ | ⟨l2, _ | ⟨l3, _ | ⟨l4, rest⟩⟩⟩⟩⟩
    · simp at hlen4
    · simp at hlen4
    · simp at hlen4
    · simp at hlen4
    · exact decode_u256 l0 l1 l2 l3 (hall l0 (by simp)) (hall l1 (by simp))
        (hall l2 (by simp)) (hall l3 (by simp))
    · simp only [List.length_cons] at hlen4
      omega
  | noneV => exact Bool.noConfusion h
  | someV v' => exact Bool.noConfusion h
  | seqV vs => exact Bool.noConfusion h
  | tupV vs => exact Bool.noConfusion h

/-- C1: the round-trip fails on the full universe.  A tuple whose first
member is H256 encodes that member as a raw 256-bit word; on decode,
`deserialize_tuple` has no hint, and `peek_uint` decodes the first word
as a 64-bit unsigned integer, which rejects the 256-bit hash value with
"decoded integer does not fit in integer of specified size" — the
round-trip `from_str (to_string v) = v` does not hold for
`v = (H256(ff…ff), 1u64)`. -/
theorem c1_roundtrip_counterexample :
    decodesTo (.tupT [.h256T, .u64T])
      (to_string (.tupV [.h256V (List.replicate 32 255), .u64V 1]))
      (.tupV [.h256V (List.replicate 32 255), .u64V 1]) = false ∧
    resDesc (from_str (.tupT [.h256T, .u64T])
      (to_string (.tupV [.h256V (List.replicate 32 255), .u64V 1]))) =
      "decoded integer does not fit in integer of specified size" :=
  ⟨by decide, by decide⟩

/-- Witness for `c1_flat_roundtrip` at the byte value `7`. -/
theorem c1_flat_roundtrip_witness :
    from_str (flatTy (.u8V 7)) (to_string (.u8V 7)) = .ok (.u8V 7) :=
  c1_flat_roundtrip (.u8V 7) (by decide)

/-- Witness for `c9_seq_first_dynamic_offset`: one two-word Fixed child
followed by one dynamic child. -/
theorem c9_seq_first_dynamic_offset_witness :
    (∃ pfx sfx : List Char,
      aggregateSeq ([Node.fixedN (List.replicate 128 '0')] ++
          (Node.dynamicN (encode_u64 5) :: [])) =
        .dynamicN (encode_u64 ([Node.fixedN (List.replicate 128 '0')] ++
            (Node.dynamicN (encode_u64 5) :: [])).length ++
          (pfx ++ (encode_u64 (calculate_header_len
            ([Node.fixedN (List.replicate 128 '0')] ++
              (Node.dynamicN (encode_u64 5) :: []))) ++ sfx)))) ∧
    (∀ nodes : List Node,
      (∀ n ∈ nodes, (∃ h, n = Node.fixedN h ∧ h.length = 64) ∨ ∃ c, n = Node.dynamicN c) →
      calculate_header_len nodes = 32 * nodes.length) :=
  c9_seq_first_dynamic_offset [Node.fixedN (List.replicate 128 '0')] (encode_u64 5) []
    (by simp)

end SerdeEth
